import Mathlib

/-!
Verification of the conflict-aware timetable scheduler.

This file gives a shallow embedding, in Lean 4, of the scheduling core of the
repository: the student-overlap index and the conflict-aware constructive
planner (src/agents/conflict_aware_planner.py), the optimized planner with
consecutive lab blocks and its teacher-reassignment repair pass
(src/agents/planner_agent.py), the schedule verifier
(src/agents/verification_agent.py) and the independent conflict recount
(src/agents/refinement_agent.py), over the data model of
src/models/data_models.py.

Python dictionaries are modelled as association lists (insertion order) or as
total functions with pointwise update; Python sets are modelled as lists with
membership-checked insertion; floats are modelled as rationals.
-/

set_option maxHeartbeats 1000000

namespace Timetable

/-- Weekday enumeration from data_models.py (class Day). -/
inductive Day where
  | monday
  | tuesday
  | wednesday
  | thursday
  | friday
  deriving DecidableEq, Repr

/-- String value of a Day member (Day.value in Python). -/
def Day.value : Day → String
  | .monday => "Monday"
  | .tuesday => "Tuesday"
  | .wednesday => "Wednesday"
  | .thursday => "Thursday"
  | .friday => "Friday"

/-- Enumeration order of the Day enum; list(Day) in Python. -/
def Day.all : List Day := [.monday, .tuesday, .wednesday, .thursday, .friday]

/-- Index of a day in the enumeration order; list(Day).index(d) in Python. -/
def dayIndex (d : Day) : Nat :=
  match d with
  | .monday => 0
  | .tuesday => 1
  | .wednesday => 2
  | .thursday => 3
  | .friday => 4

/-- Course type enumeration from data_models.py (class CourseType). -/
inductive CourseType where
  | theory4hr
  | theory3hrLab2hr
  deriving DecidableEq, Repr

/-- Session type enumeration from data_models.py (class SessionType). -/
inductive SessionType where
  | theory
  | lab
  deriving DecidableEq, Repr

/-- String value of a SessionType member. -/
def SessionType.value : SessionType → String
  | .theory => "Theory"
  | .lab => "Lab"

/-- A one-hour time slot (class TimeSlot of data_models.py). -/
structure TimeSlot where
  day : Day
  hour : Nat
  deriving DecidableEq, Repr

/-- A classroom (class Room of data_models.py). -/
structure Room where
  room_id : String
  capacity : Nat
  deriving DecidableEq, Repr

/-- A faculty member (class Teacher of data_models.py). -/
structure Teacher where
  name : String
  courses : List String
  deriving DecidableEq, Repr

/-- A course with its batches (class Course of data_models.py).
The teacher_assignments dict is an association list batch_id to teacher name. -/
structure Course where
  code : String
  course_type : CourseType
  total_batches : Nat
  batches : List String
  batch_sizes : List Nat
  teacher_assignments : List (String × String)
  deriving DecidableEq, Repr

/-- Course.theory_hours: 4 for a pure-theory course, otherwise 3. -/
def Course.theory_hours (c : Course) : Nat :=
  match c.course_type with
  | .theory4hr => 4
  | .theory3hrLab2hr => 3

/-- Course.lab_hours: 0 for a pure-theory course, otherwise 2. -/
def Course.lab_hours (c : Course) : Nat :=
  match c.course_type with
  | .theory4hr => 0
  | .theory3hrLab2hr => 2

/-- Course.total_hours. -/
def Course.total_hours (c : Course) : Nat :=
  c.theory_hours + c.lab_hours

/-- A single timetable entry (class ScheduleEntry of data_models.py). -/
structure ScheduleEntry where
  course_code : String
  batch_id : String
  teacher_name : String
  room_id : String
  time_slot : TimeSlot
  session_type : SessionType
  student_count : Nat
  deriving DecidableEq, Repr

/-- A proposed timetable (class TimetableProposal of data_models.py); the
wall-clock generation_time_ms field is not modelled. -/
structure TimetableProposal where
  proposal_id : String
  entries : List ScheduleEntry
  algorithm_used : String
  deriving DecidableEq, Repr

/-- Scheduling configuration (class SchedulingConfig of data_models.py). -/
structure SchedulingConfig where
  days : List Day
  start_hour : Nat
  end_hour : Nat
  num_rooms : Nat
  room_capacity : Nat
  deriving DecidableEq, Repr

/-- SchedulingConfig.generate_all_time_slots: for day in days, for hour in
range(start_hour, end_hour). -/
def SchedulingConfig.generate_all_time_slots (c : SchedulingConfig) : List TimeSlot :=
  c.days.flatMap fun d =>
    (List.range' c.start_hour (c.end_hour - c.start_hour)).map fun h => ⟨d, h⟩

/-- A course-batch identity: (course code, batch id). -/
abbrev CB := String × String

/-! ## Student overlap index

ConflictAwarePlanner._load_student_conflicts builds, from the per-student
enrollment rows (each row the list of (course, batch) pairs one student
takes), the adjacency sets student_conflicts, the canonically-keyed pair
counter pair_student_count, and the weighted degree conflict_count.
CSV parsing is outside the model: a run is a list of already-parsed rows. -/
/-- Ordered pairs (cbs[i], cbs[j]) with i < j of one student's row, in the
order the double loop of _load_student_conflicts visits them. -/
def rowPairs : List CB → List (CB × CB)
  | [] => []
  | cb1 :: rest => (rest.map fun cb2 => (cb1, cb2)) ++ rowPairs rest

/-- All visited pairs over all enrollment rows. -/
def allPairs (rows : List (List CB)) : List (CB × CB) :=
  rows.flatMap rowPairs

/-- Lexicographic comparison of character lists by code point, as Python
compares strings: the first differing position decides, a strict prefix is
smaller. -/
def charListLt : List Char → List Char → Bool
  | [], [] => false
  | [], _ :: _ => true
  | _ :: _, [] => false
  | c :: cs, d :: ds => if c < d then true else if d < c then false else charListLt cs ds

/-- Python string comparison a < b. -/
def strLt (a b : String) : Bool :=
  charListLt a.data b.data

/-- Python tuple comparison cb1 < cb2 on (course, batch) string pairs:
lexicographic. -/
def cbLt (a b : CB) : Bool :=
  strLt a.1 b.1 || (a.1 == b.1 && strLt a.2 b.2)

/-- Canonical dictionary key for a pair: (cb1, cb2) if cb1 < cb2 else
(cb2, cb1). -/
def canonKey (a b : CB) : CB × CB :=
  if cbLt a b then (a, b) else (b, a)

/-- Membership in the student_conflicts adjacency set: cb2 was added to
student_conflicts[cb1] (both orientations are added for every visited pair). -/
def adjMem (rows : List (List CB)) (a b : CB) : Bool :=
  (allPairs rows).any fun p => decide ((p.1 = a ∧ p.2 = b) ∨ (p.1 = b ∧ p.2 = a))

/-- Value of the pair_student_count dict at a key (0 when absent): the number
of visited pairs whose canonical key is that key. -/
def pair_student_count (rows : List (List CB)) (key : CB × CB) : Nat :=
  ((allPairs rows).filter fun p => decide (canonKey p.1 p.2 = key)).length

/-- Conflict weight of two course-batches as consulted by
count_slot_conflicts: the pair count under the canonical key when the second
is in the adjacency set of the first, else 0. -/
def conflict_weight (rows : List (List CB)) (a b : CB) : Nat :=
  if adjMem rows a b then pair_student_count rows (canonKey a b) else 0

/-- Distinct members of the student_conflicts[cb] adjacency set, in first-add
order. -/
def neighbors (rows : List (List CB)) (cb : CB) : List CB :=
  ((allPairs rows).flatMap fun p =>
    (if p.1 = cb then [p.2] else []) ++ (if p.2 = cb then [p.1] else [])).dedup

/-- Weighted degree conflict_count[cb]: sum of pair counts over the adjacency
set of cb. -/
def conflict_count (rows : List (List CB)) (cb : CB) : Nat :=
  ((neighbors rows cb).map fun n => pair_student_count rows (canonKey cb n)).sum

/-! ## Verification agent

VerificationAgent.verify of src/agents/verification_agent.py.  Conflict
records are modelled by their type and severity fields; the human-readable
description strings and entry lists do not influence the score or validity
and are not modelled.  Floats are modelled as exact rationals.  The pydantic
constraint Field(ge=0.0, le=1.0) on VerificationResult.score
(data_models.py) raises a ValidationError when violated, so verify is
modelled as returning Except. -/
/-- Append a value to the list held at a key of an insertion-ordered
association list (defaultdict(list) item append). -/
def insertAppend {κ ν : Type} [DecidableEq κ] : List (κ × List ν) → κ → ν → List (κ × List ν)
  | [], k, v => [(k, [v])]
  | (k', vs) :: rest, k, v =>
    if k' = k then (k', vs ++ [v]) :: rest else (k', vs) :: insertAppend rest k v

/-- Group a list by a key, keys in first-appearance order, values in list
order: the defaultdict(list) grouping idiom of the Python sources. -/
def groupByKey {α κ : Type} [DecidableEq κ] (key : α → κ) (l : List α) : List (κ × List α) :=
  l.foldl (fun acc x => insertAppend acc (key x) x) []

/-- A conflict record; ctype models the "type" dict key and severity the
"severity" dict key. -/
structure ConflictRecord where
  ctype : String
  severity : String
  deriving DecidableEq, Repr

/-- Result from the verification agent (class VerificationResult of
data_models.py); feedback and suggestions strings are not modelled. -/
structure VerificationResult where
  proposal_id : String
  is_valid : Bool
  score : ℚ
  conflicts : List ConflictRecord
  deriving DecidableEq, Repr

namespace VerificationAgent

/-- VerificationAgent._check_teacher_conflicts: group entries by (day, hour);
one hard record per (slot, teacher) with more than one entry. -/
def check_teacher_conflicts (proposal : TimetableProposal) : List ConflictRecord :=
  (groupByKey (fun e => (e.time_slot.day.value, e.time_slot.hour)) proposal.entries).flatMap
    fun g =>
      (groupByKey (fun e => e.teacher_name) g.2).filterMap fun tg =>
        if tg.2.length > 1 then some ⟨"teacher_conflict", "hard"⟩ else none

/-- VerificationAgent._check_room_conflicts: group entries by
(day, hour, room); one hard record per group with more than one entry. -/
def check_room_conflicts (proposal : TimetableProposal) : List ConflictRecord :=
  (groupByKey (fun e => (e.time_slot.day.value, e.time_slot.hour, e.room_id))
      proposal.entries).filterMap
    fun g => if g.2.length > 1 then some ⟨"room_conflict", "hard"⟩ else none

/-- Scheduled theory-hour count of a course-batch, as accumulated by
_check_coverage (session_type.value == "Theory"). -/
def scheduledTheory (entries : List ScheduleEntry) (code batch : String) : Nat :=
  (entries.filter fun e =>
    decide (e.course_code = code ∧ e.batch_id = batch ∧ e.session_type.value = "Theory")).length

/-- Scheduled lab-hour count of a course-batch (the else branch of the
accumulation in _check_coverage). -/
def scheduledLab (entries : List ScheduleEntry) (code batch : String) : Nat :=
  (entries.filter fun e =>
    decide (e.course_code = code ∧ e.batch_id = batch ∧ e.session_type.value ≠ "Theory")).length

/-- VerificationAgent._check_coverage: per course-batch, a hard record for a
positive theory shortfall and one for a positive lab shortfall. -/
def check_coverage (proposal : TimetableProposal) (courses : List (String × Course)) :
    List ConflictRecord :=
  courses.flatMap fun cc =>
    cc.2.batches.flatMap fun batch_id =>
      (if (cc.2.theory_hours : ℤ) - scheduledTheory proposal.entries cc.1 batch_id > 0 then
        [ConflictRecord.mk "incomplete_coverage" "hard"] else []) ++
      (if (cc.2.lab_hours : ℤ) - scheduledLab proposal.entries cc.1 batch_id > 0 then
        [ConflictRecord.mk "incomplete_coverage" "hard"] else [])

/-- VerificationAgent._check_time_bounds: hard records for entries on a day
outside config.days or at an hour outside [start_hour, end_hour). -/
def check_time_bounds (proposal : TimetableProposal) (config : SchedulingConfig) :
    List ConflictRecord :=
  proposal.entries.flatMap fun e =>
    (if e.time_slot.day.value ∉ config.days.map Day.value then
      [ConflictRecord.mk "invalid_day" "hard"] else []) ++
    (if e.time_slot.hour < config.start_hour ∨ e.time_slot.hour ≥ config.end_hour then
      [ConflictRecord.mk "invalid_time" "hard"] else [])

/-- VerificationAgent._check_soft_constraints: a soft record per course-batch
whose sessions sit on fewer than min(total_hours, 3) distinct days, and one
per (teacher, day) with more than 6 scheduled hours. -/
def check_soft_constraints (proposal : TimetableProposal)
    (courses : List (String × Course)) : List ConflictRecord :=
  ((groupByKey (fun e => (e.course_code, e.batch_id)) proposal.entries).filterMap
    fun g =>
      match courses.lookup g.1.1 with
      | some course =>
        if ((g.2.map fun e => e.time_slot.day.value).dedup).length <
            min course.total_hours 3 then
          some ⟨"poor_distribution", "soft"⟩
        else none
      | none => none) ++
  ((groupByKey (fun e => (e.teacher_name, e.time_slot.day.value)) proposal.entries).filterMap
    fun g => if g.2.length > 6 then some ⟨"teacher_overload", "soft"⟩ else none)

/-- Total required session count, dataset-wide:
sum of total_hours times batch count over all courses. -/
def totalRequired (courses : List (String × Course)) : Nat :=
  (courses.map fun cc => cc.2.total_hours * cc.2.batches.length).sum

/-- Python round(q, 3): round to the nearest multiple of 1/1000 (the exact
tie-breaking flavour is immaterial to every statement proved here). -/
def round3 (q : ℚ) : ℚ :=
  (round (q * 1000) : ℚ) / 1000

/-- All hard-severity conflict records collected by verify, in collection
order. -/
def hardConflicts (proposal : TimetableProposal) (courses : List (String × Course))
    (config : SchedulingConfig) : List ConflictRecord :=
  check_teacher_conflicts proposal ++ check_room_conflicts proposal ++
    check_coverage proposal courses ++ check_time_bounds proposal config

/-- hard_conflict_count of verify: records of the hard checks with severity
"hard". -/
def hardConflictCount (proposal : TimetableProposal) (courses : List (String × Course))
    (config : SchedulingConfig) : Nat :=
  ((hardConflicts proposal courses config).filter fun c => c.severity = "hard").length

/-- Coverage ratio of verify: placed over required, 0 when nothing is
required. -/
def coverageRatio (proposal : TimetableProposal) (courses : List (String × Course)) : ℚ :=
  if totalRequired courses > 0 then (proposal.entries.length : ℚ) / totalRequired courses else 0

/-- The score computed by verify: 1.0 minus 0.1 per hard violation and 0.02
per soft issue, clamped to [0,1], scaled by coverage, rounded to 3 places. -/
def finalScore (proposal : TimetableProposal) (courses : List (String × Course))
    (config : SchedulingConfig) : ℚ :=
  round3 (max (0 : ℚ)
    (min 1 (1 - (hardConflictCount proposal courses config : ℚ) * (1 / 10) -
      ((check_soft_constraints proposal courses).length : ℚ) * (1 / 50))) *
    coverageRatio proposal courses)

/-- VerificationAgent.verify.  The teachers dict and the constraints list are
parameters of the Python method but are not read by it.  The final
VerificationResult construction enforces the pydantic bound 0 ≤ score ≤ 1 of
data_models.py and raises (modelled as Except.error) when it fails. -/
def verify (proposal : TimetableProposal) (courses : List (String × Course))
    (teachers : List (String × Teacher)) (config : SchedulingConfig)
    (constraints : List String) : Except String VerificationResult :=
  let final_score := finalScore proposal courses config
  if 0 ≤ final_score ∧ final_score ≤ 1 then
    .ok ⟨proposal.proposal_id,
         hardConflictCount proposal courses config = 0 ∧
           coverageRatio proposal courses ≥ 95 / 100,
         final_score,
         hardConflicts proposal courses config ++ check_soft_constraints proposal courses⟩
  else
    .error "ValidationError"

end VerificationAgent

/-! ## Conflict-aware planner

ConflictAwarePlanner.generate_proposal of
src/agents/conflict_aware_planner.py: greedy most-constrained-first
scheduling with per-slot minimum-conflict selection.  The Python method also
receives the teachers dict and the config, but reads neither (rooms, days and
hours are hardcoded in its body), so they are not parameters of the model.
Python sets are modelled as duplicate-free lists (membership-checked append);
set iteration appears only inside order-independent sums. -/
/-- Add an element to a Python set modelled as a duplicate-free list. -/
def addSet {α : Type} [DecidableEq α] (l : List α) (x : α) : List α :=
  if x ∈ l then l else l ++ [x]

/-- Stable insertion: x passes every element it is not strictly before, so
equal keys keep their original relative order. -/
def insertStable {α : Type} (lt : α → α → Bool) (x : α) : List α → List α
  | [] => [x]
  | y :: ys => if lt x y then x :: y :: ys else y :: insertStable lt x ys

/-- Python's stable list.sort with a comparison key, as fold-left stable
insertion. -/
def stableSortBy {α : Type} (lt : α → α → Bool) (l : List α) : List α :=
  l.foldl (fun acc x => insertStable lt x acc) []

namespace ConflictAwarePlanner

/-- One session-group dict of sessions_to_schedule; stype models the "type"
key ("theory" or "lab"). -/
structure SessionReq where
  course : String
  batch : String
  stype : String
  hours : Nat
  teacher : String
  students : Nat
  conflicts : Nat
  deriving DecidableEq, Repr

/-- Regular rooms R1-R28. -/
def regular_rooms : List String :=
  (List.range' 1 28).map fun i => "R" ++ toString i

/-- Lab rooms LAB1-LAB7. -/
def lab_rooms : List String :=
  (List.range' 1 7).map fun i => "LAB" ++ toString i

/-- Scan days: list(Day). -/
def days : List Day := Day.all

/-- Scan hours: list(range(10, 18)). -/
def hours : List Nat := List.range' 10 8

/-- The (day, hour) scan order of find_best_slot: day-major, hour ascending. -/
def slotScanOrder : List (Day × Nat) :=
  days.flatMap fun d => hours.map fun h => (d, h)

/-- Build the session-group list: per course (dict order), per batch, a
theory group then a lab group when the respective hours are positive. -/
def sessions_to_schedule (rows : List (List CB)) (courses : List (String × Course)) :
    List SessionReq :=
  courses.flatMap fun cc =>
    cc.2.batches.enum.flatMap fun bi =>
      let conflict_score := conflict_count rows (cc.1, bi.2)
      let teacher := (cc.2.teacher_assignments.lookup bi.2).getD "TBA"
      let students := cc.2.batch_sizes.getD bi.1 60
      (if cc.2.theory_hours > 0 then
        [SessionReq.mk cc.1 bi.2 "theory" cc.2.theory_hours teacher students conflict_score]
      else []) ++
      (if cc.2.lab_hours > 0 then
        [SessionReq.mk cc.1 bi.2 "lab" cc.2.lab_hours teacher students conflict_score]
      else [])

/-- Mutable tracking structures of generate_proposal. -/
structure CAState where
  entries : List ScheduleEntry
  teacher_schedule : Day × Nat → List String
  room_schedule : Day × Nat × String → Bool
  slot_courses : Day × Nat → List CB
  total_conflicts : Nat
  scheduled_count : Nat

/-- Empty tracking state. -/
def initialState : CAState :=
  ⟨[], fun _ => [], fun _ => false, fun _ => [], 0, 0⟩

/-- count_slot_conflicts: the number of students double-booked if (course,
batch) joined the slot — sum of pair counts against conflicting occupants. -/
def count_slot_conflicts (rows : List (List CB)) (slot_courses : Day × Nat → List CB)
    (day : Day) (hour : Nat) (course batch : String) : Nat :=
  (((slot_courses (day, hour)).filter fun scheduled_cb =>
      adjMem rows (course, batch) scheduled_cb).map fun scheduled_cb =>
    pair_student_count rows (canonKey (course, batch) scheduled_cb)).sum

/-- Candidate comparison against the running best; a missing best plays
float('inf'). -/
def betterThanBest (conflicts : Nat) : Option ((Day × Nat) × String × Nat) → Bool
  | none => true
  | some b => conflicts < b.2.2

/-- The slot scan of find_best_slot over a list of remaining slots, carrying
the running best (slot, room, cost): skip teacher-busy slots, consider the
first free room of a slot, track strict improvements, and return immediately
on a zero-conflict candidate. -/
def find_best_slot_go (rows : List (List CB)) (teacher_schedule : Day × Nat → List String)
    (room_schedule : Day × Nat × String → Bool) (slot_courses : Day × Nat → List CB)
    (course batch teacher : String) (rooms : List String) :
    List (Day × Nat) → Option ((Day × Nat) × String × Nat) →
      Option ((Day × Nat) × String × Nat)
  | [], best => best
  | s :: restSlots, best =>
    if teacher ∈ teacher_schedule s then
      find_best_slot_go rows teacher_schedule room_schedule slot_courses
        course batch teacher rooms restSlots best
    else
      match rooms.find? fun room => ! room_schedule (s.1, s.2, room) with
      | none => find_best_slot_go rows teacher_schedule room_schedule slot_courses
          course batch teacher rooms restSlots best
      | some room =>
        if betterThanBest (count_slot_conflicts rows slot_courses s.1 s.2 course batch)
            best then
          if count_slot_conflicts rows slot_courses s.1 s.2 course batch = 0 then
            some (s, room, count_slot_conflicts rows slot_courses s.1 s.2 course batch)
          else
            find_best_slot_go rows teacher_schedule room_schedule slot_courses
              course batch teacher rooms restSlots
              (some (s, room, count_slot_conflicts rows slot_courses s.1 s.2 course batch))
        else find_best_slot_go rows teacher_schedule room_schedule slot_courses
          course batch teacher rooms restSlots best

/-- find_best_slot: the slot with minimum conflicts for this course-batch,
None when no teacher-free slot with a free room exists. -/
def find_best_slot (rows : List (List CB)) (teacher_schedule : Day × Nat → List String)
    (room_schedule : Day × Nat × String → Bool) (slot_courses : Day × Nat → List CB)
    (course batch teacher : String) (rooms : List String) :
    Option ((Day × Nat) × String × Nat) :=
  find_best_slot_go rows teacher_schedule room_schedule slot_courses
    course batch teacher rooms slotScanOrder none

/-- Commit one entry: append it and update the three occupancy maps, the
conflict total and the scheduled count. -/
def commitEntry (st : CAState) (s : Day × Nat) (room : String) (entry : ScheduleEntry)
    (conflicts : Nat) : CAState :=
  { entries := st.entries ++ [entry]
    teacher_schedule := fun k =>
      if k = s then addSet (st.teacher_schedule k) entry.teacher_name
      else st.teacher_schedule k
    room_schedule := fun k =>
      if k = (s.1, s.2, room) then true else st.room_schedule k
    slot_courses := fun k =>
      if k = s then addSet (st.slot_courses k) (entry.course_code, entry.batch_id)
      else st.slot_courses k
    total_conflicts := st.total_conflicts + conflicts
    scheduled_count := st.scheduled_count + 1 }

/-- The inner for-loop of generate_proposal: schedule up to hours_needed
units of one session group, stopping at the first slotless scan. -/
def schedule_hours (rows : List (List CB)) (course batch teacher stype : String)
    (students : Nat) (rooms : List String) : Nat → CAState → CAState
  | 0, st => st
  | n + 1, st =>
    match find_best_slot rows st.teacher_schedule st.room_schedule st.slot_courses
        course batch teacher rooms with
    | none => st
    | some (s, room, conflicts) =>
      let entry : ScheduleEntry :=
        ⟨course, batch, teacher, room, ⟨s.1, s.2⟩,
         if stype = "lab" then .lab else .theory, students⟩
      schedule_hours rows course batch teacher stype students rooms n
        (commitEntry st s room entry conflicts)

/-- One iteration of the outer session loop. -/
def schedule_session (rows : List (List CB)) (st : CAState) (session : SessionReq) :
    CAState :=
  schedule_hours rows session.course session.batch session.teacher session.stype
    session.students (if session.stype = "lab" then lab_rooms else regular_rooms)
    session.hours st

/-- Final tracking state of generate_proposal: session groups sorted by
descending conflict count (stable), then scheduled greedily. -/
def generateState (rows : List (List CB)) (courses : List (String × Course)) : CAState :=
  (stableSortBy (fun a b => decide (b.conflicts < a.conflicts))
    (sessions_to_schedule rows courses)).foldl (schedule_session rows) initialState

/-- ConflictAwarePlanner.generate_proposal (the proposal_id embeds a
timestamp in Python; it carries no scheduling content and is fixed here). -/
def generate_proposal (rows : List (List CB)) (courses : List (String × Course)) :
    TimetableProposal :=
  ⟨"conflict_aware", (generateState rows courses).entries, "conflict_aware"⟩

end ConflictAwarePlanner

namespace StudentConflictMatrix

/-! ## Student conflict matrix

StudentConflictMatrix of src/utils/student_conflicts.py.  Its _load_conflicts
builds exactly the adjacency of _load_student_conflicts (modelled by adjMem);
the slot_schedule dict of sets is threaded as a function from
(day value, hour) keys to occupant lists. -/
/-- StudentConflictMatrix.check_slot_available: true when no course-batch
already in the slot conflicts with the one being placed. -/
def check_slot_available (rows : List (List CB)) (slot_schedule : String × Nat → List CB)
    (course batch : String) (day : String) (hour : Nat) : Bool :=
  !((slot_schedule (day, hour)).any fun scheduled_cb =>
    adjMem rows (course, batch) scheduled_cb)

/-- StudentConflictMatrix.mark_scheduled. -/
def mark_scheduled (slot_schedule : String × Nat → List CB) (course batch : String)
    (day : String) (hour : Nat) : String × Nat → List CB :=
  fun k => if k = (day, hour) then addSet (slot_schedule k) (course, batch)
           else slot_schedule k

end StudentConflictMatrix

namespace PlannerAgent

open StudentConflictMatrix

/-! ## Optimized planner with consecutive lab blocks

PlannerAgent of src/agents/planner_agent.py: _schedule_optimized (labs as
consecutive-hour pairs in dedicated lab rooms, then theory),
_find_unscheduled, and the repair pass _fix_with_teacher_reassignment.
The LLM strategy dict is modelled by its one consulted scheduling field,
morning_theory (spread_across_days is read into a local that is never
used). -/
/-- Dedicated regular rooms R1-R21 of generate_proposal. -/
def pa_regular_rooms (config : SchedulingConfig) : List Room :=
  (List.range' 1 21).map fun i => ⟨"R" ++ toString i, config.room_capacity⟩

/-- Dedicated lab rooms LAB1-LAB7 of generate_proposal. -/
def pa_lab_rooms (config : SchedulingConfig) : List Room :=
  (List.range' 1 7).map fun i => ⟨"LAB" ++ toString i, config.room_capacity⟩

/-- Occupancy state of _schedule_optimized plus the StudentConflictMatrix
slot_schedule (all keyed by day value strings, as in the source). -/
structure PAState where
  entries : List ScheduleEntry
  teacher_schedule : String × Nat → List String
  regular_room_schedule : String × Nat × String → Bool
  lab_room_schedule : String × Nat × String → Bool
  slot_schedule : String × Nat → List CB

/-- Fresh state (the matrix is reset at the start of generate_proposal). -/
def paInitial : PAState :=
  ⟨[], fun _ => [], fun _ => false, fun _ => false, fun _ => []⟩

/-- Place one lab hour: append the entry and update teacher occupancy, the
lab-room flag and the student conflict matrix. -/
def placeLab (st : PAState) (slot : TimeSlot) (room_id : String)
    (course_code batch_id teacher_name : String) (student_count : Nat) : PAState :=
  { entries := st.entries ++
      [⟨course_code, batch_id, teacher_name, room_id, slot, .lab, student_count⟩]
    teacher_schedule := fun k =>
      if k = (slot.day.value, slot.hour) then addSet (st.teacher_schedule k) teacher_name
      else st.teacher_schedule k
    regular_room_schedule := st.regular_room_schedule
    lab_room_schedule := fun k =>
      if k = (slot.day.value, slot.hour, room_id) then true else st.lab_room_schedule k
    slot_schedule :=
      mark_scheduled st.slot_schedule course_code batch_id slot.day.value slot.hour }

/-- Place one theory hour: append the entry and update teacher occupancy, the
regular-room flag and the student conflict matrix. -/
def placeTheory (st : PAState) (slot : TimeSlot) (room_id : String)
    (course_code batch_id teacher_name : String) (student_count : Nat) : PAState :=
  { entries := st.entries ++
      [⟨course_code, batch_id, teacher_name, room_id, slot, .theory, student_count⟩]
    teacher_schedule := fun k =>
      if k = (slot.day.value, slot.hour) then addSet (st.teacher_schedule k) teacher_name
      else st.teacher_schedule k
    regular_room_schedule := fun k =>
      if k = (slot.day.value, slot.hour, room_id) then true else st.regular_room_schedule k
    lab_room_schedule := st.lab_room_schedule
    slot_schedule :=
      mark_scheduled st.slot_schedule course_code batch_id slot.day.value slot.hour }

/-- The lab while-loop of _schedule_optimized over the suffix of lab_slots
from index i (the loop runs while i < len - 1): find a consecutive same-day
slot, require the teacher free and the students conflict-free in both hours
and a lab room free in both hours, then commit the pair and advance i by 2,
else advance i by 1. -/
def labLoop (rows : List (List CB)) (course_code batch_id teacher_name : String)
    (student_count lab_hours : Nat) (lab_rooms : List Room) :
    List TimeSlot → Nat → PAState → PAState
  | [], _, st => st
  | [_], _, st => st
  | slot1 :: s2 :: rest2, lab_scheduled, st =>
    if lab_scheduled < lab_hours then
      match (s2 :: rest2).find? fun s =>
          decide (s.day = slot1.day ∧ s.hour = slot1.hour + 1) with
      | none => labLoop rows course_code batch_id teacher_name student_count lab_hours
          lab_rooms (s2 :: rest2) lab_scheduled st
      | some slot2 =>
        if teacher_name ∈ st.teacher_schedule (slot1.day.value, slot1.hour) ∨
            teacher_name ∈ st.teacher_schedule (slot2.day.value, slot2.hour) then
          labLoop rows course_code batch_id teacher_name student_count lab_hours
            lab_rooms (s2 :: rest2) lab_scheduled st
        else if !(check_slot_available rows st.slot_schedule course_code batch_id
              slot1.day.value slot1.hour) ||
            !(check_slot_available rows st.slot_schedule course_code batch_id
              slot2.day.value slot2.hour) then
          labLoop rows course_code batch_id teacher_name student_count lab_hours
            lab_rooms (s2 :: rest2) lab_scheduled st
        else
          match lab_rooms.find? fun lr =>
              !st.lab_room_schedule (slot1.day.value, slot1.hour, lr.room_id) &&
              !st.lab_room_schedule (slot2.day.value, slot2.hour, lr.room_id) with
          | none => labLoop rows course_code batch_id teacher_name student_count lab_hours
              lab_rooms (s2 :: rest2) lab_scheduled st
          | some lab_room =>
            labLoop rows course_code batch_id teacher_name student_count lab_hours
              lab_rooms rest2 (lab_scheduled + 2)
              (placeLab (placeLab st slot1 lab_room.room_id course_code batch_id
                teacher_name student_count) slot2 lab_room.room_id course_code batch_id
                teacher_name student_count)
    else st

/-- The theory for-loop of _schedule_optimized: walk the sorted slot list,
stop once enough hours are placed, skip teacher-busy or student-conflicting
slots and slots with no free regular room. -/
def theoryLoop (rows : List (List CB)) (course_code batch_id teacher_name : String)
    (student_count theory_hours : Nat) (regular_rooms : List Room) :
    List TimeSlot → Nat → PAState → PAState
  | [], _, st => st
  | slot :: rest, theory_scheduled, st =>
    if theory_scheduled ≥ theory_hours then st
    else if teacher_name ∈ st.teacher_schedule (slot.day.value, slot.hour) then
      theoryLoop rows course_code batch_id teacher_name student_count theory_hours
        regular_rooms rest theory_scheduled st
    else if !(check_slot_available rows st.slot_schedule course_code batch_id
        slot.day.value slot.hour) then
      theoryLoop rows course_code batch_id teacher_name student_count theory_hours
        regular_rooms rest theory_scheduled st
    else
      match regular_rooms.find? fun r =>
          !st.regular_room_schedule (slot.day.value, slot.hour, r.room_id) with
      | none => theoryLoop rows course_code batch_id teacher_name student_count
          theory_hours regular_rooms rest theory_scheduled st
      | some room =>
        theoryLoop rows course_code batch_id teacher_name student_count theory_hours
          regular_rooms rest (theory_scheduled + 1)
          (placeTheory st slot room.room_id course_code batch_id teacher_name
            student_count)

/-- Sorted lab slot order: by (day index, hour ascending). -/
def labSlotOrder (all_slots : List TimeSlot) : List TimeSlot :=
  stableSortBy (fun s1 s2 => decide (dayIndex s1.day < dayIndex s2.day ∨
    (dayIndex s1.day = dayIndex s2.day ∧ s1.hour < s2.hour))) all_slots

/-- Sorted theory slot order: by (day index, hour) with the hour ascending
under morning_theory and descending otherwise. -/
def theorySlotOrder (morning_theory : Bool) (all_slots : List TimeSlot) : List TimeSlot :=
  stableSortBy (fun s1 s2 => decide (dayIndex s1.day < dayIndex s2.day ∨
    (dayIndex s1.day = dayIndex s2.day ∧
      (if morning_theory then (s1.hour : ℤ) else -(s1.hour : ℤ)) <
        (if morning_theory then (s2.hour : ℤ) else -(s2.hour : ℤ))))) all_slots

/-- Schedule one (course, batch): labs first when the course has lab hours,
then theory. -/
def scheduleBatch (rows : List (List CB)) (config : SchedulingConfig)
    (morning_theory : Bool) (regular_rooms lab_rooms : List Room) (course : Course)
    (bi : Nat × String) (st : PAState) : PAState :=
  let teacher_name := (course.teacher_assignments.lookup bi.2).getD "TBA"
  let student_count := course.batch_sizes.getD bi.1 60
  let all_slots := config.generate_all_time_slots
  let st1 :=
    if course.lab_hours > 0 then
      labLoop rows course.code bi.2 teacher_name student_count course.lab_hours
        lab_rooms (labSlotOrder all_slots) 0 st
    else st
  theoryLoop rows course.code bi.2 teacher_name student_count course.theory_hours
    regular_rooms (theorySlotOrder morning_theory all_slots) 0 st1

/-- Final state of PlannerAgent._schedule_optimized: courses sorted by
descending total hours times batch count (stable), each batch getting labs
then theory. -/
def scheduleOptimizedState (rows : List (List CB)) (courses : List (String × Course))
    (config : SchedulingConfig) (morning_theory : Bool) : PAState :=
  let regular_rooms := pa_regular_rooms config
  let lab_rooms := pa_lab_rooms config
  (stableSortBy
      (fun a b => decide (b.total_hours * b.batches.length <
        a.total_hours * a.batches.length))
      (courses.map Prod.snd)).foldl
    (fun st course =>
      course.batches.enum.foldl
        (fun st2 bi => scheduleBatch rows config morning_theory regular_rooms
          lab_rooms course bi st2)
        st)
    paInitial

/-- PlannerAgent._schedule_optimized: the produced entry list. -/
def schedule_optimized (rows : List (List CB)) (courses : List (String × Course))
    (config : SchedulingConfig) (morning_theory : Bool) : List ScheduleEntry :=
  (scheduleOptimizedState rows courses config morning_theory).entries

/-- Placed theory-hour count per course-batch, as accumulated by
_find_unscheduled (session_type == SessionType.THEORY). -/
def placedTheory (entries : List ScheduleEntry) (code batch : String) : Nat :=
  (entries.filter fun e =>
    decide (e.course_code = code ∧ e.batch_id = batch ∧
      e.session_type = SessionType.theory)).length

/-- Placed lab-hour count per course-batch (else branch of the same
accumulation). -/
def placedLab (entries : List ScheduleEntry) (code batch : String) : Nat :=
  (entries.filter fun e =>
    decide (e.course_code = code ∧ e.batch_id = batch ∧
      e.session_type ≠ SessionType.theory)).length

/-- One record of the unscheduled list built by _find_unscheduled. -/
structure UnscheduledItem where
  course : String
  batch : String
  theory_missing : Int
  lab_missing : Int
  original_teacher : String
  deriving DecidableEq, Repr

/-- The record _find_unscheduled emits for one (course, batch), none when the
batch has no shortfall. -/
def unscheduledFor (entries : List ScheduleEntry) (cc : String × Course)
    (batch_id : String) : Option UnscheduledItem :=
  if (cc.2.theory_hours : Int) - placedTheory entries cc.1 batch_id > 0 ∨
      (cc.2.lab_hours : Int) - placedLab entries cc.1 batch_id > 0 then
    some ⟨cc.1, batch_id,
      (cc.2.theory_hours : Int) - placedTheory entries cc.1 batch_id,
      (cc.2.lab_hours : Int) - placedLab entries cc.1 batch_id,
      (cc.2.teacher_assignments.lookup batch_id).getD "TBA"⟩
  else none

/-- PlannerAgent._find_unscheduled: course-batches with a positive theory or
lab shortfall. -/
def find_unscheduled (entries : List ScheduleEntry) (courses : List (String × Course)) :
    List UnscheduledItem :=
  courses.flatMap fun cc => cc.2.batches.filterMap (unscheduledFor entries cc)

/-! ### Teacher-reassignment repair pass -/
/-- Occupancy state threaded through _fix_with_teacher_reassignment, plus the
new_entries accumulator. -/
structure RepairState where
  teacher_schedule : String × Nat → List String
  regular_room_schedule : String × Nat × String → Bool
  lab_room_schedule : String × Nat × String → Bool
  slot_schedule : String × Nat → List CB
  new_entries : List ScheduleEntry

/-- Teacher occupancy rebuilt from the filtered entry list. -/
def repairTeacherSchedule (entries : List ScheduleEntry) : String × Nat → List String :=
  entries.foldl
    (fun ts e => fun k =>
      if k = (e.time_slot.day.value, e.time_slot.hour) then addSet (ts k) e.teacher_name
      else ts k)
    fun _ => []

/-- Regular-room occupancy rebuilt from the filtered entry list (rooms whose
id does not start with LAB). -/
def repairRegularRoomSchedule (entries : List ScheduleEntry) :
    String × Nat × String → Bool :=
  entries.foldl
    (fun rs e => fun k =>
      if !("LAB".data.isPrefixOf e.room_id.data) ∧
          k = (e.time_slot.day.value, e.time_slot.hour, e.room_id) then true
      else rs k)
    fun _ => false

/-- Lab-room occupancy rebuilt from the filtered entry list (rooms whose id
starts with LAB); built by the source, never consulted afterwards. -/
def repairLabRoomSchedule (entries : List ScheduleEntry) :
    String × Nat × String → Bool :=
  entries.foldl
    (fun rs e => fun k =>
      if ("LAB".data.isPrefixOf e.room_id.data) ∧
          k = (e.time_slot.day.value, e.time_slot.hour, e.room_id) then true
      else rs k)
    fun _ => false

/-- Total assigned teaching hours of a teacher across the dataset
(teacher_hours of the source). -/
def teacher_hours (courses : List (String × Course)) (t : String) : Nat :=
  (((courses.flatMap fun cc =>
      cc.2.teacher_assignments.map fun ab => (ab.2, cc.2.total_hours)).filter
    fun p => p.1 = t).map Prod.snd).sum

/-- The potential_slots collection loop for one candidate teacher: walk
all_slots, stop once theory_needed pairs are collected, skip slots where the
candidate is busy, take the first free regular room, and require the student
conflict check; every collected pair is committed as SessionType.THEORY. -/
def collectSlots (rows : List (List CB)) (regular_rooms : List Room)
    (code batch alt_teacher : String) (theory_needed : Nat) (rst : RepairState) :
    List TimeSlot → List (TimeSlot × Room) → List (TimeSlot × Room)
  | [], acc => acc
  | slot :: rest, acc =>
    if acc.length ≥ theory_needed then acc
    else if alt_teacher ∈ rst.teacher_schedule (slot.day.value, slot.hour) then
      collectSlots rows regular_rooms code batch alt_teacher theory_needed rst rest acc
    else
      match regular_rooms.find? fun r =>
          !rst.regular_room_schedule (slot.day.value, slot.hour, r.room_id) with
      | some room =>
        if StudentConflictMatrix.check_slot_available rows rst.slot_schedule code batch
            slot.day.value slot.hour then
          collectSlots rows regular_rooms code batch alt_teacher theory_needed rst rest
            (acc ++ [(slot, room)])
        else
          collectSlots rows regular_rooms code batch alt_teacher theory_needed rst rest acc
      | none =>
        collectSlots rows regular_rooms code batch alt_teacher theory_needed rst rest acc

/-- The entry committed for one picked (slot, room) pair: always
SessionType.THEORY, under the replacement teacher. -/
def repairEntry (code batch alt_teacher : String) (student_count : Nat)
    (sr : TimeSlot × Room) : ScheduleEntry :=
  ⟨code, batch, alt_teacher, sr.2.room_id, sr.1, .theory, student_count⟩

/-- Commit the chosen slots under the new teacher, in order: append each
entry and update teacher occupancy, regular-room flags and the conflict
matrix. -/
def commitRepair (code batch alt_teacher : String) (student_count : Nat) :
    List (TimeSlot × Room) → RepairState → RepairState
  | [], rst => rst
  | sr :: rest, rst =>
    commitRepair code batch alt_teacher student_count rest
      { teacher_schedule := fun k =>
          if k = (sr.1.day.value, sr.1.hour) then addSet (rst.teacher_schedule k) alt_teacher
          else rst.teacher_schedule k
        regular_room_schedule := fun k =>
          if k = (sr.1.day.value, sr.1.hour, sr.2.room_id) then true
          else rst.regular_room_schedule k
        lab_room_schedule := rst.lab_room_schedule
        slot_schedule := StudentConflictMatrix.mark_scheduled rst.slot_schedule code batch
          sr.1.day.value sr.1.hour
        new_entries := rst.new_entries ++
          [repairEntry code batch alt_teacher student_count sr] }

/-- The candidate-teacher loop for one unscheduled item: skip the original
teacher, try candidates in order, commit the first full theory cover and
stop; leave the state unchanged when no candidate fits. -/
def tryTeachers (rows : List (List CB)) (all_slots : List TimeSlot)
    (regular_rooms : List Room) (code batch original_teacher : String)
    (theory_needed student_count : Nat) (rst : RepairState) :
    List String → RepairState
  | [] => rst
  | alt :: restT =>
    if alt = original_teacher then
      tryTeachers rows all_slots regular_rooms code batch original_teacher
        theory_needed student_count rst restT
    else if (collectSlots rows regular_rooms code batch alt theory_needed rst
        all_slots []).length < theory_needed then
      tryTeachers rows all_slots regular_rooms code batch original_teacher
        theory_needed student_count rst restT
    else
      commitRepair code batch alt student_count
        ((collectSlots rows regular_rooms code batch alt theory_needed rst
          all_slots []).take theory_needed) rst

/-- Processing of one unscheduled item.  The source reads courses[code],
which cannot fail for items produced by _find_unscheduled from the same
courses dict (a missing key would raise); the impossible branch leaves the
state unchanged. -/
def processItem (rows : List (List CB)) (courses : List (String × Course))
    (available_teachers : List String) (all_slots : List TimeSlot)
    (regular_rooms : List Room) (rst : RepairState) (item : UnscheduledItem) :
    RepairState :=
  match courses.lookup item.course with
  | none => rst
  | some course =>
    tryTeachers rows all_slots regular_rooms item.course item.batch
      item.original_teacher course.theory_hours (course.batch_sizes.headD 60) rst
      available_teachers

/-- The course-batch identity of an unscheduled item. -/
def itemCB (i : UnscheduledItem) : CB :=
  (i.course, i.batch)

/-- The filtered entry list of _fix_with_teacher_reassignment: every entry of
a shortfall course-batch is removed before any reassignment is attempted. -/
def filteredEntries (entries : List ScheduleEntry) (unscheduled : List UnscheduledItem) :
    List ScheduleEntry :=
  entries.filter fun e => (e.course_code, e.batch_id) ∉ unscheduled.map itemCB

/-- All teachers sorted by ascending assigned hours (least busy first). -/
def repairAvailableTeachers (courses : List (String × Course))
    (teachers : List (String × Teacher)) : List String :=
  stableSortBy (fun a b => decide (teacher_hours courses a < teacher_hours courses b))
    (teachers.map Prod.fst)

/-- Starting repair state: occupancy rebuilt from the filtered entries, the
student conflict matrix carried over, no new entries yet. -/
def repairInitialState (entries : List ScheduleEntry)
    (unscheduled : List UnscheduledItem) (slot_schedule : String × Nat → List CB) :
    RepairState :=
  ⟨repairTeacherSchedule (filteredEntries entries unscheduled),
   repairRegularRoomSchedule (filteredEntries entries unscheduled),
   repairLabRoomSchedule (filteredEntries entries unscheduled), slot_schedule, []⟩

/-- Final repair state after processing every unscheduled item in order. -/
def repairFinalState (rows : List (List CB)) (entries : List ScheduleEntry)
    (unscheduled : List UnscheduledItem) (courses : List (String × Course))
    (teachers : List (String × Teacher)) (config : SchedulingConfig)
    (regular_rooms : List Room) (slot_schedule : String × Nat → List CB) :
    RepairState :=
  unscheduled.foldl
    (processItem rows courses (repairAvailableTeachers courses teachers)
      config.generate_all_time_slots regular_rooms)
    (repairInitialState entries unscheduled slot_schedule)

/-- The new_entries list committed by _fix_with_teacher_reassignment. -/
def repairNewEntries (rows : List (List CB)) (entries : List ScheduleEntry)
    (unscheduled : List UnscheduledItem) (courses : List (String × Course))
    (teachers : List (String × Teacher)) (config : SchedulingConfig)
    (regular_rooms : List Room) (slot_schedule : String × Nat → List CB) :
    List ScheduleEntry :=
  (repairFinalState rows entries unscheduled courses teachers config regular_rooms
    slot_schedule).new_entries

/-- PlannerAgent._fix_with_teacher_reassignment: the filtered entries plus
the committed replacements. -/
def fix_with_teacher_reassignment (rows : List (List CB)) (entries : List ScheduleEntry)
    (unscheduled : List UnscheduledItem) (courses : List (String × Course))
    (teachers : List (String × Teacher)) (config : SchedulingConfig)
    (regular_rooms : List Room) (slot_schedule : String × Nat → List CB) :
    List ScheduleEntry :=
  filteredEntries entries unscheduled ++
    repairNewEntries rows entries unscheduled courses teachers config regular_rooms
      slot_schedule

/-- The entries of one course-batch, in list order. -/
def entriesFor (es : List ScheduleEntry) (cb : CB) : List ScheduleEntry :=
  es.filter fun e => decide ((e.course_code, e.batch_id) = cb)

/-! ### Concrete fixtures for the repair-pass claims -/
/-- Default scheduling configuration (5 days, hours 10..17). -/
def cexConfig : SchedulingConfig :=
  ⟨Day.all, 10, 18, 10, 90⟩

/-- A theory-3/lab-2 course with one batch taught by T1. -/
def cexCourseC1 : Course :=
  ⟨"C1", .theory3hrLab2hr, 1, ["B1"], [50], [("B1", "T1")]⟩

/-- Course dict holding only cexCourseC1. -/
def cexCourses : List (String × Course) :=
  [("C1", cexCourseC1)]

/-- Teacher dict holding only the original teacher. -/
def cexTeachersOne : List (String × Teacher) :=
  [("T1", ⟨"T1", []⟩)]

/-- Teacher dict holding the original teacher and one alternate. -/
def cexTeachersTwo : List (String × Teacher) :=
  [("T1", ⟨"T1", []⟩), ("T2", ⟨"T2", []⟩)]

/-- Four placed entries for C1-B1 (2 of 3 theory hours, both lab hours), so
the batch has a theory shortfall of 1. -/
def cexEntries : List ScheduleEntry :=
  [⟨"C1", "B1", "T1", "R1", ⟨.monday, 10⟩, .theory, 50⟩,
   ⟨"C1", "B1", "T1", "R1", ⟨.monday, 11⟩, .theory, 50⟩,
   ⟨"C1", "B1", "T1", "LAB1", ⟨.tuesday, 10⟩, .lab, 50⟩,
   ⟨"C1", "B1", "T1", "LAB1", ⟨.tuesday, 11⟩, .lab, 50⟩]

end PlannerAgent

/-! ### Lab adjacency -/
/-- Every Lab entry of the list has a paired Lab entry of the same
course-batch in the same room on the same day at the adjacent hour. -/
def labPaired (l : List ScheduleEntry) : Prop :=
  ∀ e ∈ l, e.session_type = SessionType.lab →
    ∃ e2 ∈ l, e2.session_type = SessionType.lab ∧
      e2.course_code = e.course_code ∧ e2.batch_id = e.batch_id ∧
      e2.room_id = e.room_id ∧ e2.time_slot.day = e.time_slot.day ∧
      (e2.time_slot.hour = e.time_slot.hour + 1 ∨
        e.time_slot.hour = e2.time_slot.hour + 1)

/-- Two courses sharing one teacher: the 4-hour theory course exhausts Monday
10-13, the 3+2 course's theory takes Monday 14-16, and its two lab hours land
at Monday 17 and Tuesday 10 — not adjacent. -/
def cexCourseA : Course :=
  ⟨"A", .theory4hr, 1, ["B1"], [50], [("B1", "T")]⟩

/-- The theory-3/lab-2 course sharing teacher T with cexCourseA. -/
def cexCourseB : Course :=
  ⟨"B", .theory3hrLab2hr, 1, ["B1"], [50], [("B1", "T")]⟩

/-- Course dict with the two teacher-sharing courses. -/
def cexCoursesAB : List (String × Course) :=
  [("A", cexCourseA), ("B", cexCourseB)]

/-- The entries of a list lying at one (day, hour) slot. -/
def entriesAt (l : List ScheduleEntry) (d : Day) (h : Nat) : List ScheduleEntry :=
  l.filter fun e => decide (e.time_slot = ⟨d, h⟩)

/-- No teacher and no room is double-booked: at every (day, hour) slot each
teacher name and each room id occurs in at most one entry. -/
def noDoubleBooking (l : List ScheduleEntry) : Prop :=
  ∀ (d : Day) (h : Nat),
    ((entriesAt l d h).map (fun e => e.teacher_name)).Nodup ∧
    ((entriesAt l d h).map (fun e => e.room_id)).Nodup

namespace ConflictAwarePlanner

/-- Specification-side candidate list of one find_best_slot scan over an
arbitrary slot list: for every slot where the teacher is free and some room
of the pool is free, the slot paired with the first free room in pool order,
carrying the slot's marginal conflict cost. -/
def fbsCandidatesOf (rows : List (List CB)) (ts : Day × Nat → List String)
    (rs : Day × Nat × String → Bool) (sc : Day × Nat → List CB)
    (course batch teacher : String) (rooms : List String)
    (slots : List (Day × Nat)) : List ((Day × Nat) × String × Nat) :=
  slots.filterMap fun s =>
    if teacher ∈ ts s then none
    else
      match rooms.find? fun room => ! rs (s.1, s.2, room) with
      | none => none
      | some room => some (s, room, count_slot_conflicts rows sc s.1 s.2 course batch)

/-- The candidates of the full canonical scan. -/
def fbsCandidates (rows : List (List CB)) (ts : Day × Nat → List String)
    (rs : Day × Nat × String → Bool) (sc : Day × Nat → List CB)
    (course batch teacher : String) (rooms : List String) :
    List ((Day × Nat) × String × Nat) :=
  fbsCandidatesOf rows ts rs sc course batch teacher rooms slotScanOrder

/-- First-strict-improvement minimum over a candidate list: the running best
is replaced only by a strictly cheaper candidate, so among equal-cost minima
the first encountered wins. -/
def firstMinCand : List ((Day × Nat) × String × Nat) →
    Option ((Day × Nat) × String × Nat) → Option ((Day × Nat) × String × Nat)
  | [], best => best
  | c :: rest, best =>
    if betterThanBest c.2.2 best then firstMinCand rest (some c)
    else firstMinCand rest best

/-! ### No-double-booking invariant of generate_proposal -/
/-- Occupancy soundness plus no double booking of the tracking state. -/
def CAInv (st : CAState) : Prop :=
  (∀ e ∈ st.entries,
    e.teacher_name ∈ st.teacher_schedule (e.time_slot.day, e.time_slot.hour)) ∧
  (∀ e ∈ st.entries,
    st.room_schedule (e.time_slot.day, e.time_slot.hour, e.room_id) = true) ∧
  noDoubleBooking st.entries

/-! ### Determinism: independence from set-iteration order

The only Python set that generate_proposal iterates over is the per-slot
occupant set consumed inside count_slot_conflicts, and only through an
order-independent sum.  The run is therefore invariant under any permutation
of the list representations of those sets: two runs on identical inputs
(from empty occupancy in particular) produce identical entry sequences. -/
/-- The run of generate_proposal from an arbitrary tracking state. -/
def generateStateFrom (rows : List (List CB)) (courses : List (String × Course))
    (st : CAState) : CAState :=
  (stableSortBy (fun a b => decide (b.conflicts < a.conflicts))
    (sessions_to_schedule rows courses)).foldl (schedule_session rows) st

/-- Two tracking states that agree exactly except that their slot-occupant
set representations are permutations of each other. -/
def CARel (st1 st2 : CAState) : Prop :=
  st1.entries = st2.entries ∧ st1.teacher_schedule = st2.teacher_schedule ∧
  st1.room_schedule = st2.room_schedule ∧
  (∀ k, (st1.slot_courses k).Perm (st2.slot_courses k)) ∧
  st1.total_conflicts = st2.total_conflicts ∧
  st1.scheduled_count = st2.scheduled_count

end ConflictAwarePlanner

namespace PlannerAgent

open StudentConflictMatrix

/-- Occupancy soundness plus no double booking for the optimized planner
state: teacher occupancy covers every placed entry, lab entries use rooms of
the lab-id pool with their flag set, theory entries use rooms of the
regular-id pool with their flag set. -/
def PAInv (labIds regIds : List String) (st : PAState) : Prop :=
  (∀ e ∈ st.entries,
    e.teacher_name ∈ st.teacher_schedule (e.time_slot.day.value, e.time_slot.hour)) ∧
  (∀ e ∈ st.entries, e.session_type = SessionType.lab →
    e.room_id ∈ labIds ∧
    st.lab_room_schedule (e.time_slot.day.value, e.time_slot.hour, e.room_id) = true) ∧
  (∀ e ∈ st.entries, e.session_type = SessionType.theory →
    e.room_id ∈ regIds ∧
    st.regular_room_schedule (e.time_slot.day.value, e.time_slot.hour, e.room_id) = true) ∧
  noDoubleBooking st.entries

end PlannerAgent

namespace RefinementAgent

/-! ## Refinement agent conflict recount

RefinementAgent.calculate_conflicts of src/agents/refinement_agent.py:
regroup the entries of a proposal by (day, hour) and sum the
pair_student_count weights over all unordered pairs of course-batches sharing
a slot. -/
/-- Total weight over the ordered pairs (i < j) of one slot's course-batch
list, as the double loop of calculate_conflicts visits them. -/
def pairSum (pc : CB × CB → Nat) : List CB → Nat
  | [] => 0
  | cb1 :: rest => (rest.map fun cb2 => pc (canonKey cb1 cb2)).sum + pairSum pc rest

/-- The slot_courses grouping of calculate_conflicts: defaultdict(list) keyed
by (day value, hour), values the (course, batch) pairs in entry order. -/
def calcSlotCourses (entries : List ScheduleEntry) :
    List ((String × Nat) × List CB) :=
  entries.foldl
    (fun acc e => insertAppend acc (e.time_slot.day.value, e.time_slot.hour)
      (e.course_code, e.batch_id))
    []

/-- RefinementAgent.calculate_conflicts: total student conflict weight of a
proposal, recomputed from its entry list and the pair_student_count dict. -/
def calculate_conflicts (entries : List ScheduleEntry) (pc : CB × CB → Nat) : Nat :=
  ((calcSlotCourses entries).map fun g => pairSum pc g.2).sum

/-! ## The accumulated conflict total equals the independent recount (C10) -/
/-- Value held at a key of the association list (empty when absent). -/
def assocGet {κ ν : Type} [DecidableEq κ] : List (κ × List ν) → κ → List ν
  | [], _ => []
  | (k', vs) :: rest, k => if k' = k then vs else assocGet rest k

end RefinementAgent

namespace ConflictAwarePlanner

/-- The teacher the session list assigns to a course-batch, determined by the
course dict alone. -/
def teacherOf (courses : List (String × Course)) (cb : CB) : String :=
  ((courses.lookup cb.1).map fun c =>
    (c.teacher_assignments.lookup cb.2).getD "TBA").getD "TBA"

/-- Conflict-accounting invariant of the tracking state: each slot-occupant
set coincides with the recount's slot group over the committed entries, each
occupant's teacher sits in the slot's teacher set, and the running total
equals the independent recount. -/
def CAConflictInv (rows : List (List CB)) (courses : List (String × Course))
    (st : CAState) : Prop :=
  (∀ (d : Day) (h : Nat), st.slot_courses (d, h) =
    RefinementAgent.assocGet (RefinementAgent.calcSlotCourses st.entries)
      (d.value, h)) ∧
  (∀ (d : Day) (h : Nat), ∀ cb ∈ st.slot_courses (d, h),
    teacherOf courses cb ∈ st.teacher_schedule (d, h)) ∧
  st.total_conflicts =
    RefinementAgent.calculate_conflicts st.entries (pair_student_count rows)

end ConflictAwarePlanner

/-! ### Symmetry and self-exclusion of the overlap index -/
theorem charListLt_asymm : ∀ {l1 l2 : List Char},
    charListLt l1 l2 = true → charListLt l2 l1 = false
  | [], [], h => by simp [charListLt] at h
  | [], _ :: _, _ => by simp [charListLt]
  | _ :: _, [], h => by simp [charListLt] at h
  | c :: cs, d :: ds, h => by
    rw [charListLt] at h ⊢
    rcases lt_trichotomy c d with hcd | hcd | hcd
    · rw [if_neg (lt_asymm hcd), if_pos hcd]
    · subst hcd
      rw [if_neg (lt_irrefl c), if_neg (lt_irrefl c)] at h ⊢
      exact charListLt_asymm h
    · rw [if_neg (lt_asymm hcd), if_pos hcd] at h
      exact absurd h (by simp)

theorem charListLt_connex : ∀ {l1 l2 : List Char},
    charListLt l1 l2 = false → charListLt l2 l1 = false → l1 = l2
  | [], [], _, _ => rfl
  | [], _ :: _, h, _ => by simp [charListLt] at h
  | _ :: _, [], _, h => by simp [charListLt] at h
  | c :: cs, d :: ds, h1, h2 => by
    rw [charListLt] at h1 h2
    rcases lt_trichotomy c d with hcd | hcd | hcd
    · rw [if_pos hcd] at h1; exact absurd h1 (by simp)
    · subst hcd
      rw [if_neg (lt_irrefl c), if_neg (lt_irrefl c)] at h1 h2
      rw [charListLt_connex h1 h2]
    · rw [if_pos hcd] at h2; exact absurd h2 (by simp)

theorem charListLt_irrefl : ∀ l : List Char, charListLt l l = false
  | [] => rfl
  | c :: cs => by
    rw [charListLt, if_neg (lt_irrefl c), if_neg (lt_irrefl c)]
    exact charListLt_irrefl cs

theorem strLt_asymm {a b : String} (h : strLt a b = true) : strLt b a = false :=
  charListLt_asymm h

theorem strLt_irrefl (a : String) : strLt a a = false :=
  charListLt_irrefl _

theorem strLt_connex {a b : String} (h1 : strLt a b = false) (h2 : strLt b a = false) :
    a = b :=
  String.ext (charListLt_connex h1 h2)

theorem cbLt_asymm {a b : CB} (h : cbLt a b = true) : cbLt b a = false := by
  rw [cbLt, Bool.or_eq_true, Bool.and_eq_true, beq_iff_eq] at h
  rw [cbLt, Bool.or_eq_false_iff, Bool.and_eq_false_iff]
  rcases h with h1 | ⟨he, h2⟩
  · refine ⟨strLt_asymm h1, Or.inl ?_⟩
    rw [beq_eq_false_iff_ne]
    intro hba
    rw [hba] at h1
    rw [strLt_irrefl] at h1
    cases h1
  · refine ⟨?_, Or.inr (strLt_asymm h2)⟩
    rw [← he, strLt_irrefl]

theorem cbLt_connex {a b : CB} (h1 : cbLt a b = false) (h2 : cbLt b a = false) :
    a = b := by
  rw [cbLt, Bool.or_eq_false_iff, Bool.and_eq_false_iff] at h1 h2
  obtain ⟨hs1, hr1⟩ := h1
  obtain ⟨hs2, hr2⟩ := h2
  have hfst : a.1 = b.1 := strLt_connex hs1 hs2
  have hsnd : a.2 = b.2 := by
    rcases hr1 with hb | hlt
    · rw [beq_eq_false_iff_ne] at hb; exact absurd hfst hb
    · rcases hr2 with hb | hlt'
      · rw [beq_eq_false_iff_ne] at hb; exact absurd hfst.symm hb
      · exact strLt_connex hlt hlt'
  exact Prod.ext hfst hsnd

theorem canonKey_comm (a b : CB) : canonKey a b = canonKey b a := by
  unfold canonKey
  cases h1 : cbLt a b with
  | true => rw [if_pos rfl, cbLt_asymm h1, if_neg (by simp)]
  | false =>
    cases h2 : cbLt b a with
    | true => rw [if_neg (by simp), if_pos rfl]
    | false => rw [if_neg (by simp), if_neg (by simp), cbLt_connex h1 h2]

theorem adjMem_symm (rows : List (List CB)) (a b : CB) :
    adjMem rows a b = adjMem rows b a := by
  unfold adjMem
  congr 1
  funext p
  rw [decide_eq_decide]
  tauto

theorem conflict_weight_symm (rows : List (List CB)) (a b : CB) :
    conflict_weight rows a b = conflict_weight rows b a := by
  unfold conflict_weight
  rw [adjMem_symm, canonKey_comm]

theorem rowPairs_ne {row : List CB} (hn : row.Nodup) :
    ∀ p ∈ rowPairs row, p.1 ≠ p.2 := by
  induction row with
  | nil => intro p hp; cases hp
  | cons x rest ih =>
    intro p hp
    rw [rowPairs, List.mem_append] at hp
    rcases hp with hp | hp
    · rcases List.mem_map.mp hp with ⟨y, hy, rfl⟩
      intro hxy
      have hxy' : x = y := hxy
      exact (List.nodup_cons.mp hn).1 (hxy'.symm ▸ hy)
    · exact ih (List.nodup_cons.mp hn).2 p hp

theorem adjMem_self_eq_false {rows : List (List CB)}
    (hn : ∀ row ∈ rows, row.Nodup) (a : CB) : adjMem rows a a = false := by
  unfold adjMem
  rw [List.any_eq_false]
  intro p hp
  rcases List.mem_flatMap.mp hp with ⟨row, hrow, hprow⟩
  have hne := rowPairs_ne (hn row hrow) p hprow
  simp only [decide_eq_true_eq]
  rintro (⟨h1, h2⟩ | ⟨h1, h2⟩) <;> exact hne (h1.trans h2.symm)

/-- C7: the conflict weight derived from the built overlap index is symmetric
for every input; the self-weight is 0 for every input in which no student row
repeats a (course, batch) entry. (The unrestricted self-exclusion of the
original claim fails; see the counterexample.) -/
theorem claim_C7_conflict_weight_symm_self :
    (∀ rows a b, conflict_weight rows a b = conflict_weight rows b a) ∧
    (∀ rows, (∀ row ∈ rows, row.Nodup) →
      ∀ a, conflict_weight rows a a = 0) := by
  refine ⟨conflict_weight_symm, fun rows hn a => ?_⟩
  unfold conflict_weight
  rw [adjMem_self_eq_false hn]
  simp

/-- Witness for C7: on a concrete duplicate-free input the amended theorem
applies and yields symmetry and a zero self-weight. -/
theorem claim_C7_witness :
    conflict_weight [[("CS101", "B1"), ("MA101", "B2")]] ("CS101", "B1") ("MA101", "B2") =
      conflict_weight [[("CS101", "B1"), ("MA101", "B2")]] ("MA101", "B2") ("CS101", "B1") ∧
    conflict_weight [[("CS101", "B1"), ("MA101", "B2")]] ("CS101", "B1") ("CS101", "B1") = 0 :=
  ⟨claim_C7_conflict_weight_symm_self.1 _ _ _,
   claim_C7_conflict_weight_symm_self.2 _ (by decide) _⟩

/-- Counterexample for C7 as stated: a student row that lists the same
(course, batch) twice records a self-pair, so the self-weight is 1, not 0. -/
theorem claim_C7_counterexample :
    conflict_weight [[("CS101", "B1"), ("CS101", "B1")]] ("CS101", "B1") ("CS101", "B1") = 1 := by
  decide

namespace VerificationAgent

theorem round3_bounds {q : ℚ} (h0 : 0 ≤ q) (h1 : q ≤ 1) :
    0 ≤ round3 q ∧ round3 q ≤ 1 := by
  have hlo : (0 : ℤ) ≤ round (q * 1000) := by
    rw [round_eq]
    rw [Int.le_floor]
    push_cast
    linarith
  have hhi : round (q * 1000) ≤ 1000 := by
    rw [round_eq]
    calc ⌊q * 1000 + 1 / 2⌋ ≤ ⌊(1000 : ℚ) + 1 / 2⌋ := Int.floor_mono (by linarith)
      _ = 1000 := by norm_num
  constructor
  · apply div_nonneg _ (by norm_num)
    exact_mod_cast hlo
  · rw [round3, div_le_one (by norm_num)]
    exact_mod_cast hhi

theorem finalScore_bounds (proposal : TimetableProposal)
    (courses : List (String × Course)) (config : SchedulingConfig)
    (hlen : proposal.entries.length ≤ totalRequired courses) :
    0 ≤ finalScore proposal courses config ∧ finalScore proposal courses config ≤ 1 := by
  have hcov0 : 0 ≤ coverageRatio proposal courses := by
    rw [coverageRatio]
    split
    · positivity
    · exact le_refl 0
  have hcov1 : coverageRatio proposal courses ≤ 1 := by
    rw [coverageRatio]
    split
    · rename_i hreq
      rw [div_le_one (by exact_mod_cast hreq)]
      exact_mod_cast hlen
    · norm_num
  have hbase0 : (0 : ℚ) ≤ max (0 : ℚ)
      (min 1 (1 - (hardConflictCount proposal courses config : ℚ) * (1 / 10) -
        ((check_soft_constraints proposal courses).length : ℚ) * (1 / 50))) := le_max_left _ _
  have hbase1 : max (0 : ℚ)
      (min 1 (1 - (hardConflictCount proposal courses config : ℚ) * (1 / 10) -
        ((check_soft_constraints proposal courses).length : ℚ) * (1 / 50))) ≤ (1 : ℚ) :=
    max_le (by norm_num) (min_le_left _ _)
  exact round3_bounds (mul_nonneg hbase0 hcov0) (mul_le_one₀ hbase1 hcov0 hcov1)

/-- C4: every score verify returns lies in [0, 1]; verify fails to return a
result at all (pydantic ValidationError on VerificationResult.score, whose
computed value then exceeds 1) exactly when the proposal holds more entries
than the dataset requires: for every proposal with at most the required
number of entries, the penalty-subtracted base clamped to [0,1] times the
coverage ratio placed/required stays in [0, 1] and a result is returned. -/
theorem claim_C4_verifier_score_bounds (proposal : TimetableProposal)
    (courses : List (String × Course)) (teachers : List (String × Teacher))
    (config : SchedulingConfig) (constraints : List String) :
    match verify proposal courses teachers config constraints with
    | .ok r => 0 ≤ r.score ∧ r.score ≤ 1
    | .error _ => totalRequired courses < proposal.entries.length := by
  unfold verify
  by_cases hb : 0 ≤ finalScore proposal courses config ∧
      finalScore proposal courses config ≤ 1
  · rw [if_pos hb]
    exact hb
  · rw [if_neg hb]
    by_contra hlen
    exact hb (finalScore_bounds proposal courses config (Nat.not_lt.mp hlen))

end VerificationAgent

namespace PlannerAgent

open StudentConflictMatrix

theorem entriesFor_append (l1 l2 : List ScheduleEntry) (cb : CB) :
    entriesFor (l1 ++ l2) cb = entriesFor l1 cb ++ entriesFor l2 cb :=
  List.filter_append _ _

theorem entriesFor_eq_nil {l : List ScheduleEntry} {cb : CB}
    (h : ∀ e ∈ l, (e.course_code, e.batch_id) ≠ cb) : entriesFor l cb = [] := by
  rw [entriesFor, List.filter_eq_nil_iff]
  intro e he
  simpa using h e he

theorem entriesFor_eq_self {l : List ScheduleEntry} {cb : CB}
    (h : ∀ e ∈ l, (e.course_code, e.batch_id) = cb) : entriesFor l cb = l := by
  rw [entriesFor, List.filter_eq_self]
  intro e he
  simpa using h e he

theorem commitRepair_new_entries (code batch alt : String) (sc : Nat) :
    ∀ (picked : List (TimeSlot × Room)) (rst : RepairState),
    (commitRepair code batch alt sc picked rst).new_entries =
      rst.new_entries ++ picked.map (repairEntry code batch alt sc)
  | [], rst => by simp [commitRepair]
  | sr :: rest, rst => by
    rw [commitRepair, commitRepair_new_entries code batch alt sc rest]
    simp

theorem collectSlots_rooms (rows : List (List CB)) (regular_rooms : List Room)
    (code batch alt : String) (needed : Nat) (rst : RepairState) :
    ∀ (slots : List TimeSlot) (acc : List (TimeSlot × Room)),
    (∀ sr ∈ acc, sr.2 ∈ regular_rooms) →
    ∀ sr ∈ collectSlots rows regular_rooms code batch alt needed rst slots acc,
      sr.2 ∈ regular_rooms
  | [], acc, hacc => hacc
  | slot :: rest, acc, hacc => by
    rw [collectSlots]
    split
    · exact hacc
    · split
      · exact collectSlots_rooms rows regular_rooms code batch alt needed rst rest acc hacc
      · split
        · split
          · rename_i room hroom _
            refine collectSlots_rooms rows regular_rooms code batch alt needed rst rest _
              (fun sr hsr => ?_)
            rcases List.mem_append.mp hsr with hsr | hsr
            · exact hacc sr hsr
            · rcases List.mem_singleton.mp hsr with rfl
              exact List.mem_of_find?_eq_some hroom
          · exact collectSlots_rooms rows regular_rooms code batch alt needed rst rest acc hacc
        · exact collectSlots_rooms rows regular_rooms code batch alt needed rst rest acc hacc

theorem tryTeachers_spec (rows : List (List CB)) (all_slots : List TimeSlot)
    (regular_rooms : List Room) (code batch orig : String) (needed sc : Nat) :
    ∀ (ts : List String) (rst : RepairState),
    tryTeachers rows all_slots regular_rooms code batch orig needed sc rst ts = rst ∨
    ∃ alt picked, alt ≠ orig ∧ picked.length = needed ∧
      (∀ sr ∈ picked, sr.2 ∈ regular_rooms) ∧
      tryTeachers rows all_slots regular_rooms code batch orig needed sc rst ts =
        commitRepair code batch alt sc picked rst
  | [], _ => Or.inl rfl
  | alt :: restT, rst => by
    rw [tryTeachers]
    split
    · exact tryTeachers_spec rows all_slots regular_rooms code batch orig needed sc restT rst
    · split
      · exact tryTeachers_spec rows all_slots regular_rooms code batch orig needed sc restT rst
      · rename_i halt hlen
        refine Or.inr ⟨alt, _, halt, ?_, ?_, rfl⟩
        · rw [List.length_take]
          exact Nat.min_eq_left (Nat.le_of_not_lt hlen)
        · intro sr hsr
          exact collectSlots_rooms rows regular_rooms code batch alt needed rst all_slots []
            (by simp) sr (List.take_subset _ _ hsr)

theorem processItem_spec (rows : List (List CB)) (courses : List (String × Course))
    (avail : List String) (all_slots : List TimeSlot) (regular_rooms : List Room)
    (rst : RepairState) (item : UnscheduledItem) :
    processItem rows courses avail all_slots regular_rooms rst item = rst ∨
    ∃ c alt picked, courses.lookup item.course = some c ∧
      alt ≠ item.original_teacher ∧ picked.length = c.theory_hours ∧
      (∀ sr ∈ picked, sr.2 ∈ regular_rooms) ∧
      processItem rows courses avail all_slots regular_rooms rst item =
        commitRepair item.course item.batch alt (c.batch_sizes.headD 60) picked rst := by
  rw [processItem]
  split
  · exact Or.inl rfl
  · rename_i c hc
    rcases tryTeachers_spec rows all_slots regular_rooms item.course item.batch
        item.original_teacher c.theory_hours (c.batch_sizes.headD 60) avail rst with
      h | ⟨alt, picked, halt, hlen, hrooms, h⟩
    · exact Or.inl h
    · exact Or.inr ⟨c, alt, picked, hc, halt, hlen, hrooms, h⟩

theorem processItem_delta (rows : List (List CB)) (courses : List (String × Course))
    (avail : List String) (all_slots : List TimeSlot) (regular_rooms : List Room)
    (rst : RepairState) (item : UnscheduledItem) :
    ∃ Δ, (processItem rows courses avail all_slots regular_rooms rst item).new_entries =
      rst.new_entries ++ Δ ∧
      (∀ e ∈ Δ, e.course_code = item.course ∧ e.batch_id = item.batch ∧
        e.session_type = SessionType.theory ∧ e.teacher_name ≠ item.original_teacher ∧
        e.room_id ∈ regular_rooms.map Room.room_id) ∧
      (Δ = [] ∨ ∃ c alt, courses.lookup item.course = some c ∧
        alt ≠ item.original_teacher ∧ Δ.length = c.theory_hours ∧
        ∀ e ∈ Δ, e.teacher_name = alt) := by
  rcases processItem_spec rows courses avail all_slots regular_rooms rst item with
    h | ⟨c, alt, picked, hc, halt, hlen, hrooms, h⟩
  · exact ⟨[], by simp [h], by simp, Or.inl rfl⟩
  · refine ⟨picked.map (repairEntry item.course item.batch alt (c.batch_sizes.headD 60)),
      by rw [h, commitRepair_new_entries], fun e he => ?_,
      Or.inr ⟨c, alt, hc, halt, by simp [hlen], fun e he => ?_⟩⟩
    · rcases List.mem_map.mp he with ⟨sr, hsr, rfl⟩
      exact ⟨rfl, rfl, rfl, halt, List.mem_map.mpr ⟨sr.2, hrooms sr hsr, rfl⟩⟩
    · rcases List.mem_map.mp he with ⟨sr, _, rfl⟩
      rfl

theorem processItems_delta (rows : List (List CB)) (courses : List (String × Course))
    (avail : List String) (all_slots : List TimeSlot) (regs : List Room) :
    ∀ (items : List UnscheduledItem) (rst : RepairState),
    ∃ Δ, (items.foldl (processItem rows courses avail all_slots regs) rst).new_entries =
      rst.new_entries ++ Δ ∧
      ∀ e ∈ Δ, (e.course_code, e.batch_id) ∈ items.map itemCB ∧
        e.session_type = SessionType.theory ∧ e.room_id ∈ regs.map Room.room_id
  | [], rst => ⟨[], by simp, by simp⟩
  | it :: rest, rst => by
    rw [List.foldl_cons]
    obtain ⟨Δ1, h1, hp1, _⟩ := processItem_delta rows courses avail all_slots regs rst it
    obtain ⟨Δ2, h2, hp2⟩ := processItems_delta rows courses avail all_slots regs rest
      (processItem rows courses avail all_slots regs rst it)
    refine ⟨Δ1 ++ Δ2, by rw [h2, h1, List.append_assoc], fun e he => ?_⟩
    rcases List.mem_append.mp he with he | he
    · obtain ⟨hc, hb, hth, _, hr⟩ := hp1 e he
      refine ⟨?_, hth, hr⟩
      rw [List.map_cons]
      have : (e.course_code, e.batch_id) = itemCB it := by rw [itemCB, hc, hb]
      rw [this]
      exact List.mem_cons_self _ _
    · obtain ⟨hcb, hth, hr⟩ := hp2 e he
      exact ⟨List.mem_cons_of_mem _ hcb, hth, hr⟩

theorem processItems_item (rows : List (List CB)) (courses : List (String × Course))
    (avail : List String) (all_slots : List TimeSlot) (regs : List Room) :
    ∀ (items : List UnscheduledItem) (rst : RepairState),
    (items.map itemCB).Nodup →
    (∀ e ∈ rst.new_entries, (e.course_code, e.batch_id) ∉ items.map itemCB) →
    ∀ item ∈ items,
    entriesFor ((items.foldl (processItem rows courses avail all_slots regs) rst).new_entries)
        (itemCB item) = [] ∨
    ∃ c alt, courses.lookup item.course = some c ∧ alt ≠ item.original_teacher ∧
      (entriesFor
        ((items.foldl (processItem rows courses avail all_slots regs) rst).new_entries)
        (itemCB item)).length = c.theory_hours ∧
      ∀ e ∈ entriesFor
          ((items.foldl (processItem rows courses avail all_slots regs) rst).new_entries)
          (itemCB item),
        e.teacher_name = alt ∧ e.session_type = SessionType.theory ∧
          e.room_id ∈ regs.map Room.room_id := by
  intro items
  induction items with
  | nil => intro rst _ _ item h; cases h
  | cons it rest ih =>
    intro rst hnd hclean item hmem
    rw [List.foldl_cons]
    obtain ⟨Δ1, h1, hp1, hd1⟩ := processItem_delta rows courses avail all_slots regs rst it
    have hhd : itemCB it ∉ rest.map itemCB := (List.nodup_cons.mp (by simpa using hnd)).1
    rcases List.mem_cons.mp hmem with rfl | hmem
    · obtain ⟨Δ2, h2, hp2⟩ := processItems_delta rows courses avail all_slots regs rest
        (processItem rows courses avail all_slots regs rst item)
      have hfold : (rest.foldl (processItem rows courses avail all_slots regs)
          (processItem rows courses avail all_slots regs rst item)).new_entries =
          rst.new_entries ++ Δ1 ++ Δ2 := by rw [h2, h1]
      have he1 : entriesFor rst.new_entries (itemCB item) = [] :=
        entriesFor_eq_nil fun e he hc =>
          hclean e he (by rw [hc, List.map_cons]; exact List.mem_cons_self _ _)
      have he2 : entriesFor Δ2 (itemCB item) = [] :=
        entriesFor_eq_nil fun e he hc => hhd (hc ▸ (hp2 e he).1)
      have he3 : entriesFor Δ1 (itemCB item) = Δ1 :=
        entriesFor_eq_self fun e he => by
          obtain ⟨hc, hb, _⟩ := hp1 e he
          rw [itemCB, hc, hb]
      rw [hfold, entriesFor_append, entriesFor_append, he1, he2, he3,
        List.nil_append, List.append_nil]
      rcases hd1 with rfl | ⟨c, alt, hc, halt, hlen, hteach⟩
      · exact Or.inl rfl
      · exact Or.inr ⟨c, alt, hc, halt, hlen, fun e he =>
          ⟨hteach e he, (hp1 e he).2.2.1, (hp1 e he).2.2.2.2⟩⟩
    · refine ih (processItem rows courses avail all_slots regs rst it)
        (List.nodup_cons.mp (by simpa using hnd)).2 ?_ item hmem
      intro e he
      rw [h1] at he
      rcases List.mem_append.mp he with he | he
      · intro hmem2
        exact hclean e he (by rw [List.map_cons]; exact List.mem_cons_of_mem _ hmem2)
      · obtain ⟨hc, hb, _⟩ := hp1 e he
        intro hmem2
        apply hhd
        have : (e.course_code, e.batch_id) = itemCB it := by rw [itemCB, hc, hb]
        rw [← this]
        exact hmem2

theorem unscheduledFor_eq_some {entries : List ScheduleEntry} {cc : String × Course}
    {b : String} {item : UnscheduledItem} (h : unscheduledFor entries cc b = some item) :
    item.course = cc.1 ∧ item.batch = b := by
  rw [unscheduledFor] at h
  split at h
  · cases h
    exact ⟨rfl, rfl⟩
  · cases h

theorem find_unscheduled_shape {entries : List ScheduleEntry}
    {courses : List (String × Course)} {item : UnscheduledItem}
    (h : item ∈ find_unscheduled entries courses) :
    ∃ cc ∈ courses, item.course = cc.1 ∧ item.batch ∈ cc.2.batches := by
  rw [find_unscheduled] at h
  rcases List.mem_flatMap.mp h with ⟨cc, hcc, hitem⟩
  rcases List.mem_filterMap.mp hitem with ⟨b, hb, hgb⟩
  obtain ⟨hc, hbatch⟩ := unscheduledFor_eq_some hgb
  exact ⟨cc, hcc, hc, hbatch ▸ hb⟩

theorem filterMap_unscheduledFor_nodup (entries : List ScheduleEntry)
    (cc : String × Course) :
    ∀ (bs : List String), bs.Nodup →
    ((bs.filterMap (unscheduledFor entries cc)).map itemCB).Nodup
  | [], _ => List.nodup_nil
  | b :: bs, hnd => by
    rw [List.filterMap_cons]
    have htl := filterMap_unscheduledFor_nodup entries cc bs (List.nodup_cons.mp hnd).2
    cases hgb : unscheduledFor entries cc b with
    | none => exact htl
    | some item =>
      rw [List.map_cons, List.nodup_cons]
      refine ⟨fun hmem => ?_, htl⟩
      rcases List.mem_map.mp hmem with ⟨item2, hitem2, heq⟩
      rcases List.mem_filterMap.mp hitem2 with ⟨b2, hb2, hgb2⟩
      obtain ⟨_, hbatch2⟩ := unscheduledFor_eq_some hgb2
      obtain ⟨_, hbatch⟩ := unscheduledFor_eq_some hgb
      have : b2 = b := by
        have h1 : itemCB item2 = (item2.course, item2.batch) := rfl
        have h2 : itemCB item = (item.course, item.batch) := rfl
        rw [h1, h2] at heq
        have := congrArg Prod.snd heq
        simpa [hbatch2, hbatch] using this
      exact (List.nodup_cons.mp hnd).1 (this ▸ hb2)

theorem find_unscheduled_nodup {entries : List ScheduleEntry}
    {courses : List (String × Course)} (hkeys : (courses.map Prod.fst).Nodup)
    (hbatches : ∀ cc ∈ courses, cc.2.batches.Nodup) :
    ((find_unscheduled entries courses).map itemCB).Nodup := by
  rw [find_unscheduled, List.map_flatMap]
  rw [List.nodup_flatMap]
  constructor
  · intro cc hcc
    exact filterMap_unscheduledFor_nodup entries cc cc.2.batches (hbatches cc hcc)
  · have hpw : courses.Pairwise (fun cc1 cc2 => cc1.1 ≠ cc2.1) :=
      List.pairwise_map.mp hkeys
    refine hpw.imp ?_
    intro cc1 cc2 hne x hx1 hx2
    rcases List.mem_map.mp hx1 with ⟨item1, hi1, rfl⟩
    rcases List.mem_filterMap.mp hi1 with ⟨b1, _, hg1⟩
    rcases List.mem_map.mp hx2 with ⟨item2, hi2, hcbeq⟩
    rcases List.mem_filterMap.mp hi2 with ⟨b2, _, hg2⟩
    obtain ⟨hc1, _⟩ := unscheduledFor_eq_some hg1
    obtain ⟨hc2, _⟩ := unscheduledFor_eq_some hg2
    apply hne
    have : item2.course = item1.course := by
      have := congrArg Prod.fst hcbeq
      simpa [itemCB] using this
    rw [← hc1, ← hc2, this]

theorem lookup_eq_some_of_mem {courses : List (String × Course)}
    (hkeys : (courses.map Prod.fst).Nodup) {cc : String × Course} (h : cc ∈ courses) :
    courses.lookup cc.1 = some cc.2 := by
  induction courses with
  | nil => cases h
  | cons hd tl ih =>
    rcases List.mem_cons.mp h with rfl | h
    · simp [List.lookup]
    · have h' : (hd.1 :: tl.map Prod.fst).Nodup := by rw [← List.map_cons]; exact hkeys
      obtain ⟨hnotin, htl⟩ := List.nodup_cons.mp h'
      have hne : cc.1 ≠ hd.1 := by
        intro he
        apply hnotin
        rw [← he]
        exact List.mem_map.mpr ⟨cc, h, rfl⟩
      have hbeq : (cc.1 == hd.1) = false := beq_eq_false_iff_ne.mpr hne
      rw [List.lookup, hbeq]
      exact ih htl h

/-! ### Claims C2, C6, C9 -/
/-- C9: every entry created by the teacher-reassignment repair pass has
session type Theory and a room drawn from the regular pool, for every input
(including inputs whose shortfall is a lab shortfall): the pass searches and
commits only theory slots. -/
theorem claim_C9_repair_creates_only_theory (rows : List (List CB))
    (entries : List ScheduleEntry) (unscheduled : List UnscheduledItem)
    (courses : List (String × Course)) (teachers : List (String × Teacher))
    (config : SchedulingConfig) (regs : List Room) (scm : String × Nat → List CB) :
    ∀ e ∈ repairNewEntries rows entries unscheduled courses teachers config regs scm,
      e.session_type = SessionType.theory ∧ e.room_id ∈ regs.map Room.room_id := by
  intro e he
  rw [repairNewEntries, repairFinalState] at he
  obtain ⟨Δ, hΔ, hp⟩ := processItems_delta rows courses
    (repairAvailableTeachers courses teachers) config.generate_all_time_slots regs
    unscheduled (repairInitialState entries unscheduled scm)
  rw [hΔ] at he
  simp only [repairInitialState, List.nil_append] at he
  exact ⟨(hp e he).2.1, (hp e he).2.2⟩

/-- Witness for C9: in the concrete two-teacher scenario the repair pass
commits an entry, and the theorem yields its type and room pool. -/
theorem claim_C9_witness :
    (⟨"C1", "B1", "T2", "R1", ⟨.monday, 10⟩, .theory, 50⟩ : ScheduleEntry).session_type =
      SessionType.theory ∧
    (⟨"C1", "B1", "T2", "R1", ⟨.monday, 10⟩, .theory, 50⟩ : ScheduleEntry).room_id ∈
      (pa_regular_rooms cexConfig).map Room.room_id :=
  claim_C9_repair_creates_only_theory [] [] (find_unscheduled [] cexCourses) cexCourses
    cexTeachersTwo cexConfig (pa_regular_rooms cexConfig) (fun _ => []) _ (by decide)

/-- Counterexample for C2 as stated: a batch with 4 of its 5 required hours
placed and a theory shortfall of 1, with no alternate teacher available, ends
the repair pass with zero entries — its previously placed entries are removed,
not left as they were, and coverage drops from 4 to 0. -/
theorem claim_C2_counterexample :
    fix_with_teacher_reassignment [] cexEntries (find_unscheduled cexEntries cexCourses)
      cexCourses cexTeachersOne cexConfig (pa_regular_rooms cexConfig) (fun _ => []) = [] ∧
    (entriesFor cexEntries ("C1", "B1")).length = 4 := by
  decide

/-- C2 amended: the repair pass preserves exactly the entries of every
course-batch without a shortfall; a shortfall course-batch has all of its
prior entries removed, and ends the pass either with zero entries (no
alternate teacher could host the full theory requirement) or with exactly its
full theory-hour requirement — so per-batch coverage is not monotone: it can
drop to zero, or to theory_hours when prior placed entries (theory plus lab)
exceeded that. -/
theorem claim_C2_gap_repair_coverage (rows : List (List CB))
    (entries : List ScheduleEntry) (courses : List (String × Course))
    (teachers : List (String × Teacher)) (config : SchedulingConfig)
    (regs : List Room) (scm : String × Nat → List CB)
    (hkeys : (courses.map Prod.fst).Nodup)
    (hbatches : ∀ cc ∈ courses, cc.2.batches.Nodup) :
    (∀ cb, cb ∉ (find_unscheduled entries courses).map itemCB →
      entriesFor (fix_with_teacher_reassignment rows entries
        (find_unscheduled entries courses) courses teachers config regs scm) cb =
        entriesFor entries cb) ∧
    (∀ item ∈ find_unscheduled entries courses,
      entriesFor (fix_with_teacher_reassignment rows entries
        (find_unscheduled entries courses) courses teachers config regs scm)
        (itemCB item) = [] ∨
      ∃ c, courses.lookup item.course = some c ∧
        (entriesFor (fix_with_teacher_reassignment rows entries
          (find_unscheduled entries courses) courses teachers config regs scm)
          (itemCB item)).length = c.theory_hours) := by
  have hnd := @find_unscheduled_nodup entries _ hkeys hbatches
  constructor
  · intro cb hcb
    rw [fix_with_teacher_reassignment, entriesFor_append]
    have hnew : entriesFor (repairNewEntries rows entries
        (find_unscheduled entries courses) courses teachers config regs scm) cb = [] := by
      apply entriesFor_eq_nil
      intro e he hc
      rw [repairNewEntries, repairFinalState] at he
      obtain ⟨Δ, hΔ, hp⟩ := processItems_delta rows courses
        (repairAvailableTeachers courses teachers) config.generate_all_time_slots regs
        (find_unscheduled entries courses) (repairInitialState entries
          (find_unscheduled entries courses) scm)
      rw [hΔ] at he
      simp only [repairInitialState, List.nil_append] at he
      exact hcb (hc ▸ (hp e he).1)
    rw [hnew, List.append_nil]
    rw [filteredEntries, entriesFor, entriesFor, List.filter_comm]
    apply List.filter_eq_self.mpr
    intro e he
    have hcb2 : (e.course_code, e.batch_id) = cb := by
      simpa using List.of_mem_filter he
    simpa [hcb2] using hcb
  · intro item hitem
    have hfiltered : entriesFor (filteredEntries entries
        (find_unscheduled entries courses)) (itemCB item) = [] := by
      apply entriesFor_eq_nil
      intro e he hc
      have := List.of_mem_filter he
      simp only [decide_eq_true_eq] at this
      exact this (hc ▸ List.mem_map.mpr ⟨item, hitem, rfl⟩)
    rw [fix_with_teacher_reassignment, entriesFor_append, hfiltered, List.nil_append]
    rw [repairNewEntries, repairFinalState]
    rcases processItems_item rows courses (repairAvailableTeachers courses teachers)
        config.generate_all_time_slots regs (find_unscheduled entries courses)
        (repairInitialState entries (find_unscheduled entries courses) scm) hnd
        (by intro e he; cases he) item hitem with
      h | ⟨c, alt, hc, halt, hlen, hp⟩
    · exact Or.inl h
    · exact Or.inr ⟨c, hc, hlen⟩

/-- Witness for C2: on the concrete one-course input, a course-batch that is
not a shortfall keeps its entries unchanged through the repair pass. -/
theorem claim_C2_witness :
    entriesFor (fix_with_teacher_reassignment [] cexEntries
      (find_unscheduled cexEntries cexCourses) cexCourses cexTeachersOne cexConfig
      (pa_regular_rooms cexConfig) (fun _ => [])) ("CX", "B9") =
      entriesFor cexEntries ("CX", "B9") :=
  (claim_C2_gap_repair_coverage [] cexEntries cexCourses cexTeachersOne cexConfig
    (pa_regular_rooms cexConfig) (fun _ => []) (by decide) (by decide)).1
    ("CX", "B9") (by decide)

/-- Counterexample for C6 as stated: for a shortfall batch of a lab course the
pass commits replacement entries (3 of them, covering the theory requirement)
but covers none of the 2 required lab hours, so the committed slot set does
not cover 100 percent of the requirement. -/
theorem claim_C6_counterexample :
    (entriesFor (fix_with_teacher_reassignment [] [] (find_unscheduled [] cexCourses)
      cexCourses cexTeachersTwo cexConfig (pa_regular_rooms cexConfig) (fun _ => []))
      ("C1", "B1")).length = 3 ∧
    ((entriesFor (fix_with_teacher_reassignment [] [] (find_unscheduled [] cexCourses)
      cexCourses cexTeachersTwo cexConfig (pa_regular_rooms cexConfig) (fun _ => []))
      ("C1", "B1")).filter fun e => decide (e.session_type = SessionType.lab)).length = 0 ∧
    cexCourseC1.lab_hours = 2 := by
  decide

/-- C6 amended: whenever the teacher-reassignment pass commits replacement
entries for a shortfall course-batch, the chosen teacher differs from the
original teacher, the original teacher's name appears in none of the new
entries, and the committed slot set covers exactly 100 percent of the
batch's THEORY requirement — lab hours are never covered, because the pass
searches and commits only theory slots. -/
theorem claim_C6_repair_commit (rows : List (List CB))
    (entries : List ScheduleEntry) (courses : List (String × Course))
    (teachers : List (String × Teacher)) (config : SchedulingConfig)
    (regs : List Room) (scm : String × Nat → List CB)
    (hkeys : (courses.map Prod.fst).Nodup)
    (hbatches : ∀ cc ∈ courses, cc.2.batches.Nodup) :
    ∀ item ∈ find_unscheduled entries courses,
    entriesFor (fix_with_teacher_reassignment rows entries
      (find_unscheduled entries courses) courses teachers config regs scm)
      (itemCB item) ≠ [] →
    ∃ c alt, courses.lookup item.course = some c ∧ alt ≠ item.original_teacher ∧
      (entriesFor (fix_with_teacher_reassignment rows entries
        (find_unscheduled entries courses) courses teachers config regs scm)
        (itemCB item)).length = c.theory_hours ∧
      ∀ e ∈ entriesFor (fix_with_teacher_reassignment rows entries
          (find_unscheduled entries courses) courses teachers config regs scm)
          (itemCB item),
        e.teacher_name = alt ∧ e.teacher_name ≠ item.original_teacher ∧
          e.session_type = SessionType.theory := by
  have hnd := @find_unscheduled_nodup entries _ hkeys hbatches
  intro item hitem hne
  have hfiltered : entriesFor (filteredEntries entries
      (find_unscheduled entries courses)) (itemCB item) = [] := by
    apply entriesFor_eq_nil
    intro e he hc
    have := List.of_mem_filter he
    simp only [decide_eq_true_eq] at this
    exact this (hc ▸ List.mem_map.mpr ⟨item, hitem, rfl⟩)
  rw [fix_with_teacher_reassignment, entriesFor_append, hfiltered, List.nil_append] at hne ⊢
  rw [repairNewEntries, repairFinalState] at hne ⊢
  rcases processItems_item rows courses (repairAvailableTeachers courses teachers)
      config.generate_all_time_slots regs (find_unscheduled entries courses)
      (repairInitialState entries (find_unscheduled entries courses) scm) hnd
      (by intro e he; cases he) item hitem with
    h | ⟨c, alt, hc, halt, hlen, hp⟩
  · exact absurd h hne
  · exact ⟨c, alt, hc, halt, hlen, fun e he =>
      ⟨(hp e he).1, by rw [(hp e he).1]; exact halt, (hp e he).2.1⟩⟩

/-- Witness for C6: the concrete two-teacher scenario, where the pass does
commit, instantiates the amended theorem. -/
theorem claim_C6_witness :
    ∃ c alt, cexCourses.lookup "C1" = some c ∧ alt ≠ "T1" ∧
      (entriesFor (fix_with_teacher_reassignment [] [] (find_unscheduled [] cexCourses)
        cexCourses cexTeachersTwo cexConfig (pa_regular_rooms cexConfig) (fun _ => []))
        ("C1", "B1")).length = c.theory_hours ∧
      ∀ e ∈ entriesFor (fix_with_teacher_reassignment [] [] (find_unscheduled [] cexCourses)
          cexCourses cexTeachersTwo cexConfig (pa_regular_rooms cexConfig) (fun _ => []))
          ("C1", "B1"),
        e.teacher_name = alt ∧ e.teacher_name ≠ "T1" ∧
          e.session_type = SessionType.theory :=
  claim_C6_repair_commit [] [] cexCourses cexTeachersTwo cexConfig
    (pa_regular_rooms cexConfig) (fun _ => []) (by decide) (by decide)
    ⟨"C1", "B1", 3, 2, "T1"⟩ (by decide) (by decide)

end PlannerAgent

theorem labPaired_nil : labPaired [] := by
  intro e he
  cases he

theorem labPaired_append {l1 l2 : List ScheduleEntry} (h1 : labPaired l1)
    (h2 : labPaired l2) : labPaired (l1 ++ l2) := by
  intro e he hlab
  rcases List.mem_append.mp he with he | he
  · obtain ⟨e2, he2, hp⟩ := h1 e he hlab
    exact ⟨e2, List.mem_append_left _ he2, hp⟩
  · obtain ⟨e2, he2, hp⟩ := h2 e he hlab
    exact ⟨e2, List.mem_append_right _ he2, hp⟩

theorem labPaired_of_theory {l : List ScheduleEntry}
    (h : ∀ e ∈ l, e.session_type = SessionType.theory) : labPaired l := by
  intro e he hlab
  rw [h e he] at hlab
  cases hlab

namespace PlannerAgent

open StudentConflictMatrix

theorem theoryLoop_delta (rows : List (List CB)) (cc bb tt : String) (sc th : Nat)
    (rooms : List Room) :
    ∀ (slots : List TimeSlot) (n : Nat) (st : PAState),
    ∃ Δ, (theoryLoop rows cc bb tt sc th rooms slots n st).entries =
      st.entries ++ Δ ∧ ∀ e ∈ Δ, e.session_type = SessionType.theory
  | [], n, st => ⟨[], by simp [theoryLoop], by simp⟩
  | slot :: rest, n, st => by
    rw [theoryLoop]
    split
    · exact ⟨[], by simp, by simp⟩
    · split
      · exact theoryLoop_delta rows cc bb tt sc th rooms rest n st
      · split
        · exact theoryLoop_delta rows cc bb tt sc th rooms rest n st
        · split
          · exact theoryLoop_delta rows cc bb tt sc th rooms rest n st
          · rename_i room _
            obtain ⟨Δ, hΔ, hp⟩ := theoryLoop_delta rows cc bb tt sc th rooms rest (n + 1)
              (placeTheory st slot room.room_id cc bb tt sc)
            refine ⟨⟨cc, bb, tt, room.room_id, slot, .theory, sc⟩ :: Δ, ?_, ?_⟩
            · rw [hΔ]
              simp [placeTheory]
            · intro e he
              rcases List.mem_cons.mp he with rfl | he
              · rfl
              · exact hp e he

theorem labLoop_delta (rows : List (List CB)) (cc bb tt : String) (sc lh : Nat)
    (lrooms : List Room) :
    ∀ (slots : List TimeSlot) (n : Nat) (st : PAState),
    ∃ Δ, (labLoop rows cc bb tt sc lh lrooms slots n st).entries =
      st.entries ++ Δ ∧ labPaired Δ
  | [], _, st => ⟨[], by simp [labLoop], labPaired_nil⟩
  | [_], _, st => ⟨[], by simp [labLoop], labPaired_nil⟩
  | slot1 :: s2 :: rest2, n, st => by
    rw [labLoop]
    split
    · split
      · exact labLoop_delta rows cc bb tt sc lh lrooms (s2 :: rest2) n st
      · rename_i slot2 hfind
        have hp2 : slot2.day = slot1.day ∧ slot2.hour = slot1.hour + 1 := by
          have := List.find?_some hfind
          simpa using this
        split
        · exact labLoop_delta rows cc bb tt sc lh lrooms (s2 :: rest2) n st
        · split
          · exact labLoop_delta rows cc bb tt sc lh lrooms (s2 :: rest2) n st
          · split
            · exact labLoop_delta rows cc bb tt sc lh lrooms (s2 :: rest2) n st
            · rename_i lab_room _
              obtain ⟨Δ, hΔ, hpΔ⟩ := labLoop_delta rows cc bb tt sc lh lrooms rest2 (n + 2)
                (placeLab (placeLab st slot1 lab_room.room_id cc bb tt sc) slot2
                  lab_room.room_id cc bb tt sc)
              refine ⟨[⟨cc, bb, tt, lab_room.room_id, slot1, .lab, sc⟩,
                ⟨cc, bb, tt, lab_room.room_id, slot2, .lab, sc⟩] ++ Δ, ?_, ?_⟩
              · rw [hΔ]
                simp [placeLab]
              · refine labPaired_append ?_ hpΔ
                intro e he _
                rcases List.mem_cons.mp he with rfl | he
                · refine ⟨⟨cc, bb, tt, lab_room.room_id, slot2, .lab, sc⟩, ?_, rfl, rfl,
                    rfl, rfl, hp2.1, Or.inl hp2.2⟩
                  exact List.mem_cons_of_mem _ (List.mem_cons_self _ _)
                · rcases List.mem_cons.mp he with rfl | he
                  · refine ⟨⟨cc, bb, tt, lab_room.room_id, slot1, .lab, sc⟩,
                      List.mem_cons_self _ _, rfl, rfl, rfl, rfl, hp2.1.symm, Or.inr hp2.2⟩
                  · cases he
    · exact ⟨[], by simp, labPaired_nil⟩

theorem scheduleBatch_delta (rows : List (List CB)) (config : SchedulingConfig)
    (mt : Bool) (regs labs : List Room) (course : Course) (bi : Nat × String)
    (st : PAState) :
    ∃ Δ, (scheduleBatch rows config mt regs labs course bi st).entries =
      st.entries ++ Δ ∧ labPaired Δ := by
  rw [scheduleBatch]
  split
  · obtain ⟨Δ1, h1, hp1⟩ := labLoop_delta rows course.code bi.2
      ((course.teacher_assignments.lookup bi.2).getD "TBA")
      (course.batch_sizes.getD bi.1 60) course.lab_hours labs
      (labSlotOrder config.generate_all_time_slots) 0 st
    obtain ⟨Δ2, h2, hp2⟩ := theoryLoop_delta rows course.code bi.2
      ((course.teacher_assignments.lookup bi.2).getD "TBA")
      (course.batch_sizes.getD bi.1 60) course.theory_hours regs
      (theorySlotOrder mt config.generate_all_time_slots) 0 _
    exact ⟨Δ1 ++ Δ2, by rw [h2, h1, List.append_assoc],
      labPaired_append hp1 (labPaired_of_theory hp2)⟩
  · obtain ⟨Δ2, h2, hp2⟩ := theoryLoop_delta rows course.code bi.2
      ((course.teacher_assignments.lookup bi.2).getD "TBA")
      (course.batch_sizes.getD bi.1 60) course.theory_hours regs
      (theorySlotOrder mt config.generate_all_time_slots) 0 st
    exact ⟨Δ2, h2, labPaired_of_theory hp2⟩

theorem foldl_labPaired_delta {α : Type} (f : PAState → α → PAState)
    (hstep : ∀ st x, ∃ Δ, (f st x).entries = st.entries ++ Δ ∧ labPaired Δ) :
    ∀ (l : List α) (st : PAState),
    ∃ Δ, (l.foldl f st).entries = st.entries ++ Δ ∧ labPaired Δ
  | [], st => ⟨[], by simp, labPaired_nil⟩
  | x :: rest, st => by
    rw [List.foldl_cons]
    obtain ⟨Δ1, h1, hp1⟩ := hstep st x
    obtain ⟨Δ2, h2, hp2⟩ := foldl_labPaired_delta f hstep rest (f st x)
    exact ⟨Δ1 ++ Δ2, by rw [h2, h1, List.append_assoc], labPaired_append hp1 hp2⟩

theorem scheduleOptimized_labPaired (rows : List (List CB))
    (courses : List (String × Course)) (config : SchedulingConfig) (mt : Bool) :
    labPaired (schedule_optimized rows courses config mt) := by
  rw [schedule_optimized, scheduleOptimizedState]
  obtain ⟨Δ, hΔ, hp⟩ := foldl_labPaired_delta
    (fun st course => course.batches.enum.foldl
      (fun st2 bi => scheduleBatch rows config mt (pa_regular_rooms config)
        (pa_lab_rooms config) course bi st2) st)
    (fun st course => foldl_labPaired_delta _
      (fun st2 bi => scheduleBatch_delta rows config mt (pa_regular_rooms config)
        (pa_lab_rooms config) course bi st2) course.batches.enum st)
    (stableSortBy (fun a b => decide (b.total_hours * b.batches.length <
      a.total_hours * a.batches.length)) (courses.map Prod.snd)) paInitial
  rw [hΔ]
  simpa [paInitial] using hp

/-- C3 amended: in every proposal produced by PlannerAgent._schedule_optimized,
every Lab entry has a paired Lab entry of the same course-batch in the same
room on the same day at the next or previous hour (labs are committed only as
consecutive-hour pairs in one lab room).  The original claim fails for
ConflictAwarePlanner.generate_proposal, which places lab hours one at a time
with no adjacency logic; see the counterexample. -/
theorem claim_C3_lab_adjacency (rows : List (List CB))
    (courses : List (String × Course)) (config : SchedulingConfig) (mt : Bool) :
    ∀ e ∈ schedule_optimized rows courses config mt,
      e.session_type = SessionType.lab →
      ∃ e2 ∈ schedule_optimized rows courses config mt,
        e2.session_type = SessionType.lab ∧
        e2.course_code = e.course_code ∧ e2.batch_id = e.batch_id ∧
        e2.room_id = e.room_id ∧ e2.time_slot.day = e.time_slot.day ∧
        (e2.time_slot.hour = e.time_slot.hour + 1 ∨
          e.time_slot.hour = e2.time_slot.hour + 1) :=
  scheduleOptimized_labPaired rows courses config mt

/-- Witness for C3: in the concrete one-lab-course run the first lab entry has
its paired consecutive-hour entry. -/
theorem claim_C3_witness :
    ∃ e2 ∈ schedule_optimized [] cexCourses cexConfig true,
      e2.session_type = SessionType.lab ∧
      e2.course_code = "C1" ∧ e2.batch_id = "B1" ∧ e2.room_id = "LAB1" ∧
      e2.time_slot.day = Day.monday ∧
      (e2.time_slot.hour = 10 + 1 ∨ (10 : Nat) = e2.time_slot.hour + 1) :=
  claim_C3_lab_adjacency [] cexCourses cexConfig true
    ⟨"C1", "B1", "T1", "LAB1", ⟨.monday, 10⟩, .lab, 50⟩ (by decide) rfl

end PlannerAgent

theorem entriesAt_append (l1 l2 : List ScheduleEntry) (d : Day) (h : Nat) :
    entriesAt (l1 ++ l2) d h = entriesAt l1 d h ++ entriesAt l2 d h :=
  List.filter_append _ _

theorem noDoubleBooking_nil : noDoubleBooking [] := by
  intro d h
  constructor <;> simp [entriesAt]

theorem nodup_append_singleton {α : Type} [DecidableEq α] {l : List α} {x : α}
    (hl : l.Nodup) (hx : x ∉ l) : (l ++ [x]).Nodup := by
  rw [List.nodup_append]
  exact ⟨hl, List.nodup_singleton x, fun a ha hax => by
    rw [List.mem_singleton.mp hax] at ha
    exact hx ha⟩

namespace ConflictAwarePlanner

theorem firstMinCand_locked : ∀ (l : List ((Day × Nat) × String × Nat))
    (b : (Day × Nat) × String × Nat), b.2.2 = 0 → firstMinCand l (some b) = some b
  | [], _, _ => rfl
  | c :: rest, b, hb => by
    rw [firstMinCand]
    have hfalse : betterThanBest c.2.2 (some b) = false := by
      simp [betterThanBest, hb]
    rw [hfalse]
    simp only [Bool.false_eq_true, if_false]
    exact firstMinCand_locked rest b hb

theorem firstMinCand_some : ∀ (l : List ((Day × Nat) × String × Nat))
    (b : (Day × Nat) × String × Nat), ∃ r, firstMinCand l (some b) = some r
  | [], b => ⟨b, rfl⟩
  | c :: rest, b => by
    rw [firstMinCand]
    split
    · exact firstMinCand_some rest c
    · exact firstMinCand_some rest b

theorem firstMinCand_spec : ∀ (l : List ((Day × Nat) × String × Nat)) (best) (r),
    firstMinCand l best = some r →
    (r ∈ l ∨ best = some r) ∧ (∀ c ∈ l, r.2.2 ≤ c.2.2) ∧
      (∀ b, best = some b → r.2.2 ≤ b.2.2)
  | [], best, r, h => by
    rw [firstMinCand] at h
    exact ⟨Or.inr h, by simp, fun b hb => by rw [h] at hb; cases hb; exact le_refl _⟩
  | c :: rest, best, r, h => by
    rw [firstMinCand] at h
    by_cases hbt : betterThanBest c.2.2 best = true
    · rw [if_pos hbt] at h
      obtain ⟨hmem, hmin, hbest⟩ := firstMinCand_spec rest (some c) r h
      have hrc : r.2.2 ≤ c.2.2 := hbest c rfl
      refine ⟨?_, ?_, ?_⟩
      · rcases hmem with hmem | hmem
        · exact Or.inl (List.mem_cons_of_mem _ hmem)
        · cases hmem
          exact Or.inl (List.mem_cons_self _ _)
      · intro c' hc'
        rcases List.mem_cons.mp hc' with rfl | hc'
        · exact hrc
        · exact hmin c' hc'
      · intro b hb
        rw [hb, betterThanBest] at hbt
        simp only [decide_eq_true_eq] at hbt
        exact hrc.trans (le_of_lt hbt)
    · rw [if_neg hbt] at h
      obtain ⟨hmem, hmin, hbest⟩ := firstMinCand_spec rest best r h
      refine ⟨?_, ?_, hbest⟩
      · rcases hmem with hmem | hmem
        · exact Or.inl (List.mem_cons_of_mem _ hmem)
        · exact Or.inr hmem
      · intro c' hc'
        rcases List.mem_cons.mp hc' with rfl | hc'
        · cases hb : best with
          | none => rw [hb] at hbt; exact absurd rfl hbt
          | some b =>
            rw [hb, betterThanBest] at hbt
            simp only [decide_eq_true_eq, Nat.not_lt] at hbt
            exact (hbest b hb).trans hbt
        · exact hmin c' hc'

theorem firstMinCand_first_zero : ∀ (l : List ((Day × Nat) × String × Nat)) (best) (z),
    (∀ b, best = some b → b.2.2 ≠ 0) →
    l.find? (fun c => c.2.2 == 0) = some z → firstMinCand l best = some z
  | [], _, z, _, h => by rw [List.find?] at h; cases h
  | c :: rest, best, z, hbest, h => by
    rw [List.find?] at h
    rw [firstMinCand]
    cases hc : (c.2.2 == 0) with
    | true =>
      rw [hc] at h
      cases h
      have hc0 : c.2.2 = 0 := by simpa using hc
      have hbt : betterThanBest c.2.2 best = true := by
        cases hb : best with
        | none => rfl
        | some b =>
          have := hbest b hb
          simp [betterThanBest, hc0, Nat.pos_of_ne_zero this]
      rw [if_pos hbt]
      exact firstMinCand_locked rest c hc0
    | false =>
      rw [hc] at h
      split
      · refine firstMinCand_first_zero rest (some c) z (fun b hb => ?_) h
        cases hb
        simpa using hc
      · exact firstMinCand_first_zero rest best z hbest h

theorem fbsCandidatesOf_cons_busy {rows : List (List CB)} {ts : Day × Nat → List String}
    {rs : Day × Nat × String → Bool} {sc : Day × Nat → List CB}
    {course batch teacher : String} {rooms : List String} {s : Day × Nat}
    {rest : List (Day × Nat)} (ht : teacher ∈ ts s) :
    fbsCandidatesOf rows ts rs sc course batch teacher rooms (s :: rest) =
      fbsCandidatesOf rows ts rs sc course batch teacher rooms rest := by
  rw [fbsCandidatesOf, fbsCandidatesOf, List.filterMap_cons_none]
  simp [ht]

theorem fbsCandidatesOf_cons_noroom {rows : List (List CB)} {ts : Day × Nat → List String}
    {rs : Day × Nat × String → Bool} {sc : Day × Nat → List CB}
    {course batch teacher : String} {rooms : List String} {s : Day × Nat}
    {rest : List (Day × Nat)} (ht : teacher ∉ ts s)
    (hroom : rooms.find? (fun room => ! rs (s.1, s.2, room)) = none) :
    fbsCandidatesOf rows ts rs sc course batch teacher rooms (s :: rest) =
      fbsCandidatesOf rows ts rs sc course batch teacher rooms rest := by
  rw [fbsCandidatesOf, fbsCandidatesOf, List.filterMap_cons_none]
  simp [ht, hroom]

theorem fbsCandidatesOf_cons_room {rows : List (List CB)} {ts : Day × Nat → List String}
    {rs : Day × Nat × String → Bool} {sc : Day × Nat → List CB}
    {course batch teacher : String} {rooms : List String} {s : Day × Nat}
    {rest : List (Day × Nat)} {room : String} (ht : teacher ∉ ts s)
    (hroom : rooms.find? (fun room => ! rs (s.1, s.2, room)) = some room) :
    fbsCandidatesOf rows ts rs sc course batch teacher rooms (s :: rest) =
      (s, room, count_slot_conflicts rows sc s.1 s.2 course batch) ::
        fbsCandidatesOf rows ts rs sc course batch teacher rooms rest := by
  rw [fbsCandidatesOf, fbsCandidatesOf, List.filterMap_cons_some]
  simp [ht, hroom]

theorem find_best_slot_go_eq (rows : List (List CB)) (ts : Day × Nat → List String)
    (rs : Day × Nat × String → Bool) (sc : Day × Nat → List CB)
    (course batch teacher : String) (rooms : List String) :
    ∀ (slots : List (Day × Nat)) (best : Option ((Day × Nat) × String × Nat)),
    find_best_slot_go rows ts rs sc course batch teacher rooms slots best =
      firstMinCand (fbsCandidatesOf rows ts rs sc course batch teacher rooms slots) best
  | [], best => rfl
  | s :: rest, best => by
    rw [find_best_slot_go]
    by_cases ht : teacher ∈ ts s
    · rw [if_pos ht, fbsCandidatesOf_cons_busy ht]
      exact find_best_slot_go_eq rows ts rs sc course batch teacher rooms rest best
    · rw [if_neg ht]
      cases hroom : rooms.find? fun room => ! rs (s.1, s.2, room) with
      | none =>
        simp only [hroom]
        rw [fbsCandidatesOf_cons_noroom ht hroom]
        exact find_best_slot_go_eq rows ts rs sc course batch teacher rooms rest best
      | some room =>
        simp only [hroom]
        rw [fbsCandidatesOf_cons_room ht hroom, firstMinCand]
        by_cases hbt : betterThanBest
            (count_slot_conflicts rows sc s.1 s.2 course batch) best = true
        · rw [if_pos hbt, if_pos hbt]
          by_cases h0 : count_slot_conflicts rows sc s.1 s.2 course batch = 0
          · rw [if_pos h0]
            exact (firstMinCand_locked _ _ h0).symm
          · rw [if_neg h0]
            exact find_best_slot_go_eq rows ts rs sc course batch teacher rooms rest _
        · rw [if_neg hbt, if_neg hbt]
          exact find_best_slot_go_eq rows ts rs sc course batch teacher rooms rest best

/-- C5: the slot-selection policy of find_best_slot.  The scan realizes the
first-strict-improvement minimum over the candidate list (teacher-free slots
paired with the first free room of the pool, in canonical day-hour order), so
(i) when a zero-marginal-cost candidate exists the first one in canonical
order is returned (the recursion returns there without scanning further),
(ii) any returned candidate is a candidate of globally minimum cost with the
first encountered winning ties, and (iii) None is returned exactly when no
candidate exists. -/
theorem claim_C5_slot_selection (rows : List (List CB)) (ts : Day × Nat → List String)
    (rs : Day × Nat × String → Bool) (sc : Day × Nat → List CB)
    (course batch teacher : String) (rooms : List String) :
    find_best_slot rows ts rs sc course batch teacher rooms =
      firstMinCand (fbsCandidates rows ts rs sc course batch teacher rooms) none ∧
    (find_best_slot rows ts rs sc course batch teacher rooms = none ↔
      fbsCandidates rows ts rs sc course batch teacher rooms = []) ∧
    (∀ z, (fbsCandidates rows ts rs sc course batch teacher rooms).find?
        (fun c => c.2.2 == 0) = some z →
      find_best_slot rows ts rs sc course batch teacher rooms = some z) ∧
    (∀ r, find_best_slot rows ts rs sc course batch teacher rooms = some r →
      r ∈ fbsCandidates rows ts rs sc course batch teacher rooms ∧
      ∀ c ∈ fbsCandidates rows ts rs sc course batch teacher rooms, r.2.2 ≤ c.2.2) := by
  have hkey : find_best_slot rows ts rs sc course batch teacher rooms =
      firstMinCand (fbsCandidates rows ts rs sc course batch teacher rooms) none :=
    find_best_slot_go_eq rows ts rs sc course batch teacher rooms slotScanOrder none
  refine ⟨hkey, ?_, ?_, ?_⟩
  · constructor
    · intro hnone
      rw [hkey] at hnone
      cases hcands : fbsCandidates rows ts rs sc course batch teacher rooms with
      | nil => rfl
      | cons c rest =>
        rw [hcands, firstMinCand] at hnone
        rw [if_pos (by rfl)] at hnone
        obtain ⟨r, hr⟩ := firstMinCand_some rest c
        rw [hr] at hnone
        cases hnone
    · intro hcands
      rw [hkey, hcands]
      rfl
  · intro z hz
    rw [hkey]
    exact firstMinCand_first_zero _ none z (by intro b hb; cases hb) hz
  · intro r hr
    rw [hkey] at hr
    obtain ⟨hmem, hmin, _⟩ := firstMinCand_spec _ none r hr
    rcases hmem with hmem | hmem
    · exact ⟨hmem, hmin⟩
    · cases hmem

/-- Witness for C5: on empty occupancy the first candidate of the scan,
(Monday, 10) with room R1 at cost 0, is returned by the zero-cost clause of
the theorem. -/
theorem claim_C5_witness :
    find_best_slot [] (fun _ => []) (fun _ => false) (fun _ => [])
      "CS101" "B1" "T1" regular_rooms = some ((Day.monday, 10), "R1", 0) :=
  (claim_C5_slot_selection [] (fun _ => []) (fun _ => false) (fun _ => [])
    "CS101" "B1" "T1" regular_rooms).2.2.1 ((Day.monday, 10), "R1", 0) (by decide)

theorem addSet_subset {α : Type} [DecidableEq α] {l : List α} {x y : α} (h : x ∈ l) :
    x ∈ addSet l y := by
  rw [addSet]
  split
  · exact h
  · exact List.mem_append_left _ h

theorem addSet_mem_self {α : Type} [DecidableEq α] (l : List α) (x : α) :
    x ∈ addSet l x := by
  rw [addSet]
  split
  · assumption
  · exact List.mem_append_right _ (List.mem_singleton.mpr rfl)

theorem fbsCandidatesOf_mem {rows : List (List CB)} {ts : Day × Nat → List String}
    {rs : Day × Nat × String → Bool} {sc : Day × Nat → List CB}
    {course batch teacher : String} {rooms : List String} {slots : List (Day × Nat)}
    {r : (Day × Nat) × String × Nat}
    (h : r ∈ fbsCandidatesOf rows ts rs sc course batch teacher rooms slots) :
    teacher ∉ ts r.1 ∧ rs (r.1.1, r.1.2, r.2.1) = false ∧ r.2.1 ∈ rooms := by
  rw [fbsCandidatesOf] at h
  rcases List.mem_filterMap.mp h with ⟨s, _, hf⟩
  by_cases ht : teacher ∈ ts s
  · rw [if_pos ht] at hf
    cases hf
  · rw [if_neg ht] at hf
    cases hroom : rooms.find? fun room => ! rs (s.1, s.2, room) with
    | none => rw [hroom] at hf; cases hf
    | some room =>
      rw [hroom] at hf
      cases hf
      refine ⟨ht, ?_, List.mem_of_find?_eq_some hroom⟩
      have := List.find?_some hroom
      simpa using this

theorem find_best_slot_free {rows : List (List CB)} {ts : Day × Nat → List String}
    {rs : Day × Nat × String → Bool} {sc : Day × Nat → List CB}
    {course batch teacher : String} {rooms : List String}
    {r : (Day × Nat) × String × Nat}
    (h : find_best_slot rows ts rs sc course batch teacher rooms = some r) :
    teacher ∉ ts r.1 ∧ rs (r.1.1, r.1.2, r.2.1) = false ∧ r.2.1 ∈ rooms := by
  rw [find_best_slot, find_best_slot_go_eq] at h
  obtain ⟨hmem, _, _⟩ := firstMinCand_spec _ none r h
  rcases hmem with hmem | hmem
  · exact fbsCandidatesOf_mem hmem
  · cases hmem

theorem commitEntry_inv {st : CAState} {s : Day × Nat} {room : String}
    {entry : ScheduleEntry} {conflicts : Nat}
    (hts : entry.time_slot = ⟨s.1, s.2⟩) (hrid : entry.room_id = room)
    (hteacher : entry.teacher_name ∉ st.teacher_schedule s)
    (hroom : st.room_schedule (s.1, s.2, room) = false)
    (hInv : CAInv st) : CAInv (commitEntry st s room entry conflicts) := by
  obtain ⟨hA, hB, hN⟩ := hInv
  refine ⟨?_, ?_, ?_⟩
  · intro e he
    rcases List.mem_append.mp he with he | he
    · have := hA e he
      show e.teacher_name ∈
        (if (e.time_slot.day, e.time_slot.hour) = s
          then addSet (st.teacher_schedule (e.time_slot.day, e.time_slot.hour))
            entry.teacher_name
          else st.teacher_schedule (e.time_slot.day, e.time_slot.hour))
      split
      · exact addSet_subset this
      · exact this
    · rcases List.mem_singleton.mp he with rfl
      show e.teacher_name ∈
        (if (e.time_slot.day, e.time_slot.hour) = s
          then addSet (st.teacher_schedule (e.time_slot.day, e.time_slot.hour))
            e.teacher_name
          else st.teacher_schedule (e.time_slot.day, e.time_slot.hour))
      rw [if_pos (by rw [hts])]
      exact addSet_mem_self _ _
  · intro e he
    rcases List.mem_append.mp he with he | he
    · have := hB e he
      show (if (e.time_slot.day, e.time_slot.hour, e.room_id) = (s.1, s.2, room)
          then true else st.room_schedule (e.time_slot.day, e.time_slot.hour, e.room_id)) =
        true
      split
      · rfl
      · exact this
    · rcases List.mem_singleton.mp he with rfl
      show (if (e.time_slot.day, e.time_slot.hour, e.room_id) = (s.1, s.2, room)
          then true else st.room_schedule (e.time_slot.day, e.time_slot.hour, e.room_id)) =
        true
      rw [if_pos (by rw [hts, hrid])]
  · intro d h
    show ((entriesAt (st.entries ++ [entry]) d h).map _).Nodup ∧
      ((entriesAt (st.entries ++ [entry]) d h).map _).Nodup
    rw [entriesAt_append]
    by_cases hslot : entry.time_slot = (⟨d, h⟩ : TimeSlot)
    · have hsd : s = (d, h) := by
        rw [hts] at hslot
        cases hslot
        rfl
      have hone : entriesAt [entry] d h = [entry] := by
        simp [entriesAt, hslot]
      rw [hone, List.map_append, List.map_append]
      constructor
      · refine nodup_append_singleton (hN d h).1 ?_
        simp only [List.map_cons, List.map_nil]
        intro hmem
        rcases List.mem_map.mp hmem with ⟨e', he', hteq⟩
        have := hA e' (List.mem_of_mem_filter he')
        have hslot' : e'.time_slot = (⟨d, h⟩ : TimeSlot) := by
          have := List.of_mem_filter he'
          simpa [entriesAt] using this
        apply hteacher
        rw [hsd]
        have hkey : (e'.time_slot.day, e'.time_slot.hour) = (d, h) := by
          rw [hslot']
        rw [hkey] at this
        rw [← hteq]
        exact this
      · refine nodup_append_singleton (hN d h).2 ?_
        simp only [List.map_cons, List.map_nil]
        intro hmem
        rcases List.mem_map.mp hmem with ⟨e', he', hreq⟩
        have := hB e' (List.mem_of_mem_filter he')
        have hslot' : e'.time_slot = (⟨d, h⟩ : TimeSlot) := by
          have := List.of_mem_filter he'
          simpa [entriesAt] using this
        have hd : e'.time_slot.day = d := by rw [hslot']
        have hh : e'.time_slot.hour = h := by rw [hslot']
        rw [hd, hh, hreq, hrid] at this
        have hroom' : st.room_schedule (d, h, room) = false := by
          rw [hsd] at hroom
          exact hroom
        rw [hroom'] at this
        cases this
    · have hnone : entriesAt [entry] d h = [] := by
        simp [entriesAt, hslot]
      rw [hnone, List.append_nil]
      exact hN d h

theorem schedule_hours_inv (rows : List (List CB)) (course batch teacher stype : String)
    (students : Nat) (rooms : List String) :
    ∀ (n : Nat) (st : CAState), CAInv st →
      CAInv (schedule_hours rows course batch teacher stype students rooms n st)
  | 0, st, hInv => hInv
  | n + 1, st, hInv => by
    rw [schedule_hours]
    cases hfbs : find_best_slot rows st.teacher_schedule st.room_schedule st.slot_courses
        course batch teacher rooms with
    | none => exact hInv
    | some r =>
      obtain ⟨hteacher, hroom, _⟩ := find_best_slot_free hfbs
      exact schedule_hours_inv rows course batch teacher stype students rooms n _
        (commitEntry_inv rfl rfl hteacher hroom hInv)

theorem count_slot_conflicts_perm (rows : List (List CB))
    {sc1 sc2 : Day × Nat → List CB} (hperm : ∀ k, (sc1 k).Perm (sc2 k))
    (d : Day) (h : Nat) (course batch : String) :
    count_slot_conflicts rows sc1 d h course batch =
      count_slot_conflicts rows sc2 d h course batch := by
  rw [count_slot_conflicts, count_slot_conflicts]
  exact List.Perm.sum_eq (List.Perm.map _ (List.Perm.filter _ (hperm (d, h))))

theorem fbsCandidatesOf_perm (rows : List (List CB)) (ts : Day × Nat → List String)
    (rs : Day × Nat × String → Bool) {sc1 sc2 : Day × Nat → List CB}
    (hperm : ∀ k, (sc1 k).Perm (sc2 k)) (course batch teacher : String)
    (rooms : List String) (slots : List (Day × Nat)) :
    fbsCandidatesOf rows ts rs sc1 course batch teacher rooms slots =
      fbsCandidatesOf rows ts rs sc2 course batch teacher rooms slots := by
  rw [fbsCandidatesOf, fbsCandidatesOf]
  congr 1
  funext s
  rw [count_slot_conflicts_perm rows hperm]

theorem find_best_slot_perm (rows : List (List CB)) (ts : Day × Nat → List String)
    (rs : Day × Nat × String → Bool) {sc1 sc2 : Day × Nat → List CB}
    (hperm : ∀ k, (sc1 k).Perm (sc2 k)) (course batch teacher : String)
    (rooms : List String) :
    find_best_slot rows ts rs sc1 course batch teacher rooms =
      find_best_slot rows ts rs sc2 course batch teacher rooms := by
  rw [find_best_slot, find_best_slot_go_eq, find_best_slot, find_best_slot_go_eq,
    fbsCandidatesOf_perm rows ts rs hperm]

theorem addSet_perm {α : Type} [DecidableEq α] {l1 l2 : List α} (h : l1.Perm l2)
    (x : α) : (addSet l1 x).Perm (addSet l2 x) := by
  rw [addSet, addSet]
  by_cases hx : x ∈ l1
  · rw [if_pos hx, if_pos (h.mem_iff.mp hx)]
    exact h
  · rw [if_neg hx, if_neg fun hx2 => hx (h.mem_iff.mpr hx2)]
    exact List.Perm.append_right _ h

theorem commitEntry_rel {st1 st2 : CAState} (hrel : CARel st1 st2) (s : Day × Nat)
    (room : String) (entry : ScheduleEntry) (conflicts : Nat) :
    CARel (commitEntry st1 s room entry conflicts)
      (commitEntry st2 s room entry conflicts) := by
  obtain ⟨he, hts, hrs, hsc, htc, hcnt⟩ := hrel
  refine ⟨by rw [commitEntry, commitEntry, he], ?_, ?_, ?_, ?_, ?_⟩
  · show (fun k => if k = s then addSet (st1.teacher_schedule k) entry.teacher_name
      else st1.teacher_schedule k) =
      (fun k => if k = s then addSet (st2.teacher_schedule k) entry.teacher_name
      else st2.teacher_schedule k)
    rw [hts]
  · show (fun k => if k = (s.1, s.2, room) then true else st1.room_schedule k) =
      (fun k => if k = (s.1, s.2, room) then true else st2.room_schedule k)
    rw [hrs]
  · intro k
    show List.Perm
      (if k = s then addSet (st1.slot_courses k) (entry.course_code, entry.batch_id)
        else st1.slot_courses k)
      (if k = s then addSet (st2.slot_courses k) (entry.course_code, entry.batch_id)
        else st2.slot_courses k)
    by_cases hk : k = s
    · rw [if_pos hk, if_pos hk]
      exact addSet_perm (hsc k) _
    · rw [if_neg hk, if_neg hk]
      exact hsc k
  · show st1.total_conflicts + conflicts = st2.total_conflicts + conflicts
    rw [htc]
  · show st1.scheduled_count + 1 = st2.scheduled_count + 1
    rw [hcnt]

theorem schedule_hours_rel (rows : List (List CB))
    (course batch teacher stype : String) (students : Nat) (rooms : List String) :
    ∀ (n : Nat) {st1 st2 : CAState}, CARel st1 st2 →
      CARel (schedule_hours rows course batch teacher stype students rooms n st1)
        (schedule_hours rows course batch teacher stype students rooms n st2)
  | 0, _, _, h => h
  | n + 1, st1, st2, h => by
    rw [schedule_hours, schedule_hours]
    have hfbs : find_best_slot rows st1.teacher_schedule st1.room_schedule
        st1.slot_courses course batch teacher rooms =
      find_best_slot rows st2.teacher_schedule st2.room_schedule st2.slot_courses
        course batch teacher rooms := by
      rw [h.2.1, h.2.2.1]
      exact find_best_slot_perm rows _ _ h.2.2.2.1 course batch teacher rooms
    rw [← hfbs]
    cases hres : find_best_slot rows st1.teacher_schedule st1.room_schedule
        st1.slot_courses course batch teacher rooms with
    | none => exact h
    | some r =>
      exact schedule_hours_rel rows course batch teacher stype students rooms n
        (commitEntry_rel h r.1 r.2.1 _ r.2.2)

theorem generateStateFrom_rel (rows : List (List CB))
    (courses : List (String × Course)) :
    ∀ {st1 st2 : CAState}, CARel st1 st2 →
      CARel (generateStateFrom rows courses st1) (generateStateFrom rows courses st2) := by
  have haux : ∀ (sessions : List SessionReq) (st1 st2 : CAState), CARel st1 st2 →
      CARel (sessions.foldl (schedule_session rows) st1)
        (sessions.foldl (schedule_session rows) st2) := by
    intro sessions
    induction sessions with
    | nil => intro st1 st2 h; exact h
    | cons s rest ih =>
      intro st1 st2 h
      rw [List.foldl_cons, List.foldl_cons]
      exact ih _ _ (schedule_hours_rel rows s.course s.batch s.teacher s.stype
        s.students _ s.hours h)
  intro st1 st2 h
  exact haux _ st1 st2 h

/-- C8: determinism of generate_proposal.  The model is a pure function of
its inputs, and the single internal set iteration (the per-slot occupant
sets read by count_slot_conflicts) cannot influence the result: runs from
tracking states that agree up to permutation of the occupant-set
representations produce identical ScheduleEntry sequences, and
generate_proposal itself is exactly the run from empty occupancy — so two
runs on identical inputs produce identical entry sequences in the same
order. -/
theorem claim_C8_determinism (rows : List (List CB))
    (courses : List (String × Course)) :
    generateState rows courses = generateStateFrom rows courses initialState ∧
    ∀ (st1 st2 : CAState), CARel st1 st2 →
      (generateStateFrom rows courses st1).entries =
        (generateStateFrom rows courses st2).entries :=
  ⟨rfl, fun _ _ h => (generateStateFrom_rel rows courses h).1⟩

/-- Witness for C8: two concrete starting states whose Monday-10 occupant
sets are permutations of each other yield the same entries. -/
theorem claim_C8_witness :
    (generateStateFrom [] [("A", ⟨"A", .theory4hr, 1, ["B1"], [50], [("B1", "T")]⟩)]
      ⟨[], fun _ => [], fun _ => false,
        (fun k => if k = (Day.monday, 10) then [("X", "B1"), ("Y", "B2")] else []),
        0, 0⟩).entries =
    (generateStateFrom [] [("A", ⟨"A", .theory4hr, 1, ["B1"], [50], [("B1", "T")]⟩)]
      ⟨[], fun _ => [], fun _ => false,
        (fun k => if k = (Day.monday, 10) then [("Y", "B2"), ("X", "B1")] else []),
        0, 0⟩).entries :=
  (claim_C8_determinism [] [("A", ⟨"A", .theory4hr, 1, ["B1"], [50], [("B1", "T")]⟩)]).2
    _ _ ⟨rfl, rfl, rfl,
      (fun k => by
        show List.Perm
          (if k = (Day.monday, 10) then [("X", "B1"), ("Y", "B2")] else [])
          (if k = (Day.monday, 10) then [("Y", "B2"), ("X", "B1")] else [])
        by_cases hk : k = (Day.monday, 10)
        · rw [if_pos hk, if_pos hk]
          exact List.Perm.swap ("Y", "B2") ("X", "B1") []
        · rw [if_neg hk, if_neg hk]),
      rfl, rfl⟩

theorem foldl_schedule_session_inv (rows : List (List CB)) :
    ∀ (sessions : List SessionReq) (st : CAState), CAInv st →
      CAInv (sessions.foldl (schedule_session rows) st)
  | [], _, h => h
  | s :: rest, st, h => by
    rw [List.foldl_cons]
    exact foldl_schedule_session_inv rows rest _
      (schedule_hours_inv rows s.course s.batch s.teacher s.stype s.students _ s.hours st h)

theorem initialState_inv : CAInv initialState :=
  ⟨(fun e he => absurd he (List.not_mem_nil e)),
   (fun e he => absurd he (List.not_mem_nil e)), noDoubleBooking_nil⟩

theorem generateState_inv (rows : List (List CB)) (courses : List (String × Course)) :
    CAInv (generateState rows courses) :=
  foldl_schedule_session_inv rows _ initialState initialState_inv

end ConflictAwarePlanner

namespace PlannerAgent

open StudentConflictMatrix

theorem placeTheory_inv {labIds regIds : List String} {st : PAState} {slot : TimeSlot}
    {room_id cc bb tt : String} {sc : Nat}
    (hdisj : ∀ x ∈ regIds, x ∉ labIds)
    (hroom_mem : room_id ∈ regIds)
    (hteacher : tt ∉ st.teacher_schedule (slot.day.value, slot.hour))
    (hfree : st.regular_room_schedule (slot.day.value, slot.hour, room_id) = false)
    (hInv : PAInv labIds regIds st) :
    PAInv labIds regIds (placeTheory st slot room_id cc bb tt sc) := by
  obtain ⟨hA, hB1, hB2, hN⟩ := hInv
  refine ⟨?_, ?_, ?_, ?_⟩
  · intro e he
    rcases List.mem_append.mp he with he | he
    · have := hA e he
      show e.teacher_name ∈
        (if (e.time_slot.day.value, e.time_slot.hour) = (slot.day.value, slot.hour)
          then addSet (st.teacher_schedule (e.time_slot.day.value, e.time_slot.hour)) tt
          else st.teacher_schedule (e.time_slot.day.value, e.time_slot.hour))
      split
      · exact ConflictAwarePlanner.addSet_subset this
      · exact this
    · rcases List.mem_singleton.mp he with rfl
      show tt ∈
        (if (slot.day.value, slot.hour) = (slot.day.value, slot.hour)
          then addSet (st.teacher_schedule (slot.day.value, slot.hour)) tt
          else st.teacher_schedule (slot.day.value, slot.hour))
      rw [if_pos rfl]
      exact ConflictAwarePlanner.addSet_mem_self _ _
  · intro e he hlab
    rcases List.mem_append.mp he with he | he
    · exact hB1 e he hlab
    · rcases List.mem_singleton.mp he with rfl
      cases hlab
  · intro e he hth
    rcases List.mem_append.mp he with he | he
    · obtain ⟨hm, hs⟩ := hB2 e he hth
      refine ⟨hm, ?_⟩
      show (if (e.time_slot.day.value, e.time_slot.hour, e.room_id) =
          (slot.day.value, slot.hour, room_id) then true
        else st.regular_room_schedule (e.time_slot.day.value, e.time_slot.hour, e.room_id)) =
        true
      split
      · rfl
      · exact hs
    · rcases List.mem_singleton.mp he with rfl
      refine ⟨hroom_mem, ?_⟩
      show (if (slot.day.value, slot.hour, room_id) = (slot.day.value, slot.hour, room_id)
          then true
        else st.regular_room_schedule (slot.day.value, slot.hour, room_id)) = true
      rw [if_pos rfl]
  · intro d h
    show ((entriesAt (st.entries ++ [_]) d h).map _).Nodup ∧
      ((entriesAt (st.entries ++ [_]) d h).map _).Nodup
    rw [entriesAt_append]
    by_cases hslot : slot = (⟨d, h⟩ : TimeSlot)
    · have hone : entriesAt [(⟨cc, bb, tt, room_id, slot, .theory, sc⟩ : ScheduleEntry)]
          d h = [⟨cc, bb, tt, room_id, slot, .theory, sc⟩] := by
        simp [entriesAt, hslot]
      rw [hone, List.map_append, List.map_append]
      constructor
      · refine nodup_append_singleton (hN d h).1 ?_
        simp only [List.map_cons, List.map_nil]
        intro hmem
        rcases List.mem_map.mp hmem with ⟨e', he', hteq⟩
        have hAe := hA e' (List.mem_of_mem_filter he')
        have hslot' : e'.time_slot = (⟨d, h⟩ : TimeSlot) := by
          have := List.of_mem_filter he'
          simpa [entriesAt] using this
        apply hteacher
        rw [hslot]
        rw [hslot'] at hAe
        rw [← hteq]
        exact hAe
      · refine nodup_append_singleton (hN d h).2 ?_
        simp only [List.map_cons, List.map_nil]
        intro hmem
        rcases List.mem_map.mp hmem with ⟨e', he', hreq⟩
        have hslot' : e'.time_slot = (⟨d, h⟩ : TimeSlot) := by
          have := List.of_mem_filter he'
          simpa [entriesAt] using this
        have hmem' := List.mem_of_mem_filter he'
        cases hsty : e'.session_type with
        | theory =>
          obtain ⟨_, hs⟩ := hB2 e' hmem' hsty
          rw [hslot', hreq] at hs
          have hs' : st.regular_room_schedule (Day.value d, h, room_id) = true := hs
          have hf' : st.regular_room_schedule (Day.value d, h, room_id) = false := by
            rw [hslot] at hfree
            exact hfree
          rw [hf'] at hs'
          cases hs'
        | lab =>
          obtain ⟨hm, _⟩ := hB1 e' hmem' hsty
          rw [hreq] at hm
          exact hdisj room_id hroom_mem hm
    · have hnone : entriesAt [(⟨cc, bb, tt, room_id, slot, .theory, sc⟩ : ScheduleEntry)]
          d h = [] := by
        simp [entriesAt]
        intro hcon
        exact absurd hcon hslot
      rw [hnone, List.append_nil]
      exact hN d h

theorem placeLab_inv {labIds regIds : List String} {st : PAState} {slot : TimeSlot}
    {room_id cc bb tt : String} {sc : Nat}
    (hdisj : ∀ x ∈ regIds, x ∉ labIds)
    (hroom_mem : room_id ∈ labIds)
    (hteacher : tt ∉ st.teacher_schedule (slot.day.value, slot.hour))
    (hfree : st.lab_room_schedule (slot.day.value, slot.hour, room_id) = false)
    (hInv : PAInv labIds regIds st) :
    PAInv labIds regIds (placeLab st slot room_id cc bb tt sc) := by
  obtain ⟨hA, hB1, hB2, hN⟩ := hInv
  refine ⟨?_, ?_, ?_, ?_⟩
  · intro e he
    rcases List.mem_append.mp he with he | he
    · have := hA e he
      show e.teacher_name ∈
        (if (e.time_slot.day.value, e.time_slot.hour) = (slot.day.value, slot.hour)
          then addSet (st.teacher_schedule (e.time_slot.day.value, e.time_slot.hour)) tt
          else st.teacher_schedule (e.time_slot.day.value, e.time_slot.hour))
      split
      · exact ConflictAwarePlanner.addSet_subset this
      · exact this
    · rcases List.mem_singleton.mp he with rfl
      show tt ∈
        (if (slot.day.value, slot.hour) = (slot.day.value, slot.hour)
          then addSet (st.teacher_schedule (slot.day.value, slot.hour)) tt
          else st.teacher_schedule (slot.day.value, slot.hour))
      rw [if_pos rfl]
      exact ConflictAwarePlanner.addSet_mem_self _ _
  · intro e he hlab
    rcases List.mem_append.mp he with he | he
    · obtain ⟨hm, hs⟩ := hB1 e he hlab
      refine ⟨hm, ?_⟩
      show (if (e.time_slot.day.value, e.time_slot.hour, e.room_id) =
          (slot.day.value, slot.hour, room_id) then true
        else st.lab_room_schedule (e.time_slot.day.value, e.time_slot.hour, e.room_id)) =
        true
      split
      · rfl
      · exact hs
    · rcases List.mem_singleton.mp he with rfl
      refine ⟨hroom_mem, ?_⟩
      show (if (slot.day.value, slot.hour, room_id) = (slot.day.value, slot.hour, room_id)
          then true
        else st.lab_room_schedule (slot.day.value, slot.hour, room_id)) = true
      rw [if_pos rfl]
  · intro e he hth
    rcases List.mem_append.mp he with he | he
    · exact hB2 e he hth
    · rcases List.mem_singleton.mp he with rfl
      cases hth
  · intro d h
    show ((entriesAt (st.entries ++ [_]) d h).map _).Nodup ∧
      ((entriesAt (st.entries ++ [_]) d h).map _).Nodup
    rw [entriesAt_append]
    by_cases hslot : slot = (⟨d, h⟩ : TimeSlot)
    · have hone : entriesAt [(⟨cc, bb, tt, room_id, slot, .lab, sc⟩ : ScheduleEntry)]
          d h = [⟨cc, bb, tt, room_id, slot, .lab, sc⟩] := by
        simp [entriesAt, hslot]
      rw [hone, List.map_append, List.map_append]
      constructor
      · refine nodup_append_singleton (hN d h).1 ?_
        simp only [List.map_cons, List.map_nil]
        intro hmem
        rcases List.mem_map.mp hmem with ⟨e', he', hteq⟩
        have hAe := hA e' (List.mem_of_mem_filter he')
        have hslot' : e'.time_slot = (⟨d, h⟩ : TimeSlot) := by
          have := List.of_mem_filter he'
          simpa [entriesAt] using this
        apply hteacher
        rw [hslot]
        rw [hslot'] at hAe
        rw [← hteq]
        exact hAe
      · refine nodup_append_singleton (hN d h).2 ?_
        simp only [List.map_cons, List.map_nil]
        intro hmem
        rcases List.mem_map.mp hmem with ⟨e', he', hreq⟩
        have hslot' : e'.time_slot = (⟨d, h⟩ : TimeSlot) := by
          have := List.of_mem_filter he'
          simpa [entriesAt] using this
        have hmem' := List.mem_of_mem_filter he'
        cases hsty : e'.session_type with
        | lab =>
          obtain ⟨_, hs⟩ := hB1 e' hmem' hsty
          rw [hslot', hreq] at hs
          have hs' : st.lab_room_schedule (Day.value d, h, room_id) = true := hs
          have hf' : st.lab_room_schedule (Day.value d, h, room_id) = false := by
            rw [hslot] at hfree
            exact hfree
          rw [hf'] at hs'
          cases hs'
        | theory =>
          obtain ⟨hm, _⟩ := hB2 e' hmem' hsty
          rw [hreq] at hm
          exact hdisj room_id hm hroom_mem
    · have hnone : entriesAt [(⟨cc, bb, tt, room_id, slot, .lab, sc⟩ : ScheduleEntry)]
          d h = [] := by
        simp [entriesAt]
        intro hcon
        exact absurd hcon hslot
      rw [hnone, List.append_nil]
      exact hN d h

theorem theoryLoop_inv {labIds regIds : List String}
    (hdisj : ∀ x ∈ regIds, x ∉ labIds) (rows : List (List CB))
    (cc bb tt : String) (sc th : Nat) (rooms : List Room)
    (hrooms : ∀ r ∈ rooms, r.room_id ∈ regIds) :
    ∀ (slots : List TimeSlot) (n : Nat) (st : PAState), PAInv labIds regIds st →
      PAInv labIds regIds (theoryLoop rows cc bb tt sc th rooms slots n st)
  | [], _, _, h => h
  | slot :: rest, n, st, h => by
    rw [theoryLoop]
    split
    · exact h
    · split
      · exact theoryLoop_inv hdisj rows cc bb tt sc th rooms hrooms rest n st h
      · rename_i hteacher
        split
        · exact theoryLoop_inv hdisj rows cc bb tt sc th rooms hrooms rest n st h
        · split
          · exact theoryLoop_inv hdisj rows cc bb tt sc th rooms hrooms rest n st h
          · rename_i room hroom
            refine theoryLoop_inv hdisj rows cc bb tt sc th rooms hrooms rest (n + 1) _
              (placeTheory_inv hdisj (hrooms room (List.mem_of_find?_eq_some hroom))
                hteacher ?_ h)
            have := List.find?_some hroom
            simpa using this

theorem labLoop_inv {labIds regIds : List String}
    (hdisj : ∀ x ∈ regIds, x ∉ labIds) (rows : List (List CB))
    (cc bb tt : String) (sc lh : Nat) (lrooms : List Room)
    (hrooms : ∀ r ∈ lrooms, r.room_id ∈ labIds) :
    ∀ (slots : List TimeSlot) (n : Nat) (st : PAState), PAInv labIds regIds st →
      PAInv labIds regIds (labLoop rows cc bb tt sc lh lrooms slots n st)
  | [], _, _, h => h
  | [_], _, _, h => h
  | slot1 :: s2 :: rest2, n, st, h => by
    rw [labLoop]
    split
    · split
      · exact labLoop_inv hdisj rows cc bb tt sc lh lrooms hrooms (s2 :: rest2) n st h
      · rename_i slot2 hfind
        have hadj : slot2.day = slot1.day ∧ slot2.hour = slot1.hour + 1 := by
          have := List.find?_some hfind
          simpa using this
        split
        · exact labLoop_inv hdisj rows cc bb tt sc lh lrooms hrooms (s2 :: rest2) n st h
        · rename_i hteach
          push_neg at hteach
          split
          · exact labLoop_inv hdisj rows cc bb tt sc lh lrooms hrooms (s2 :: rest2) n st h
          · split
            · exact labLoop_inv hdisj rows cc bb tt sc lh lrooms hrooms (s2 :: rest2) n st h
            · rename_i lab_room hlr
              have hfree := List.find?_some hlr
              rw [Bool.and_eq_true] at hfree
              have hfree1 : st.lab_room_schedule
                  (slot1.day.value, slot1.hour, lab_room.room_id) = false := by
                have := hfree.1
                simpa using this
              have hfree2 : st.lab_room_schedule
                  (slot2.day.value, slot2.hour, lab_room.room_id) = false := by
                have := hfree.2
                simpa using this
              have hkey12 : ((slot2.day.value, slot2.hour) : String × Nat) ≠
                  (slot1.day.value, slot1.hour) := by
                intro hk
                have := congrArg Prod.snd hk
                rw [hadj.2] at this
                exact Nat.succ_ne_self _ this
              refine labLoop_inv hdisj rows cc bb tt sc lh lrooms hrooms rest2 (n + 2) _
                (placeLab_inv hdisj (hrooms lab_room (List.mem_of_find?_eq_some hlr))
                  ?_ ?_
                  (placeLab_inv hdisj (hrooms lab_room (List.mem_of_find?_eq_some hlr))
                    hteach.1 hfree1 h))
              · show tt ∉ (if ((slot2.day.value, slot2.hour) : String × Nat) =
                    (slot1.day.value, slot1.hour)
                  then addSet (st.teacher_schedule (slot2.day.value, slot2.hour)) tt
                  else st.teacher_schedule (slot2.day.value, slot2.hour))
                rw [if_neg hkey12]
                exact hteach.2
              · show (if ((slot2.day.value, slot2.hour, lab_room.room_id) :
                      String × Nat × String) =
                    (slot1.day.value, slot1.hour, lab_room.room_id)
                  then true
                  else st.lab_room_schedule (slot2.day.value, slot2.hour, lab_room.room_id)) =
                  false
                rw [if_neg]
                · exact hfree2
                · intro hk
                  have := congrArg (fun p => p.2.1) hk
                  rw [hadj.2] at this
                  exact Nat.succ_ne_self _ this
    · exact h

theorem scheduleBatch_inv {labIds regIds : List String}
    (hdisj : ∀ x ∈ regIds, x ∉ labIds) (rows : List (List CB))
    (config : SchedulingConfig) (mt : Bool) (regs labs : List Room)
    (hregs : ∀ r ∈ regs, r.room_id ∈ regIds) (hlabs : ∀ r ∈ labs, r.room_id ∈ labIds)
    (course : Course) (bi : Nat × String) (st : PAState)
    (h : PAInv labIds regIds st) :
    PAInv labIds regIds (scheduleBatch rows config mt regs labs course bi st) := by
  rw [scheduleBatch]
  split
  · exact theoryLoop_inv hdisj rows course.code bi.2 _ _ _ regs hregs _ 0 _
      (labLoop_inv hdisj rows course.code bi.2 _ _ _ labs hlabs _ 0 st h)
  · exact theoryLoop_inv hdisj rows course.code bi.2 _ _ _ regs hregs _ 0 st h

theorem pa_regular_room_ids (config : SchedulingConfig) :
    (pa_regular_rooms config).map Room.room_id =
      (List.range' 1 21).map fun i => "R" ++ toString i := by
  rw [pa_regular_rooms, List.map_map]
  rfl

theorem pa_lab_room_ids (config : SchedulingConfig) :
    (pa_lab_rooms config).map Room.room_id =
      (List.range' 1 7).map fun i => "LAB" ++ toString i := by
  rw [pa_lab_rooms, List.map_map]
  rfl

theorem pa_room_ids_disjoint (config : SchedulingConfig) :
    ∀ x ∈ (pa_regular_rooms config).map Room.room_id,
      x ∉ (pa_lab_rooms config).map Room.room_id := by
  have key : ∀ x ∈ (List.range' 1 21).map (fun i => "R" ++ toString i),
      x ∉ (List.range' 1 7).map fun i => "LAB" ++ toString i := by decide
  intro x hx
  rw [pa_regular_room_ids] at hx
  rw [pa_lab_room_ids]
  exact key x hx

theorem paInitial_inv {labIds regIds : List String} : PAInv labIds regIds paInitial :=
  ⟨(fun e he => absurd he (List.not_mem_nil e)),
   (fun e he => absurd he (List.not_mem_nil e)),
   (fun e he => absurd he (List.not_mem_nil e)), noDoubleBooking_nil⟩

theorem scheduleOptimizedState_inv (rows : List (List CB))
    (courses : List (String × Course)) (config : SchedulingConfig) (mt : Bool) :
    PAInv ((pa_lab_rooms config).map Room.room_id)
      ((pa_regular_rooms config).map Room.room_id)
      (scheduleOptimizedState rows courses config mt) := by
  rw [scheduleOptimizedState]
  generalize stableSortBy (fun a b => decide (b.total_hours * b.batches.length <
    a.total_hours * a.batches.length)) (courses.map Prod.snd) = sorted_courses
  have hbatch : ∀ (course : Course) (bis : List (Nat × String)) (st : PAState),
      PAInv ((pa_lab_rooms config).map Room.room_id)
        ((pa_regular_rooms config).map Room.room_id) st →
      PAInv ((pa_lab_rooms config).map Room.room_id)
        ((pa_regular_rooms config).map Room.room_id)
        (bis.foldl (fun st2 bi => scheduleBatch rows config mt (pa_regular_rooms config)
          (pa_lab_rooms config) course bi st2) st) := by
    intro course bis
    induction bis with
    | nil => intro st h; exact h
    | cons bi rest ih =>
      intro st h
      rw [List.foldl_cons]
      exact ih _ (scheduleBatch_inv (pa_room_ids_disjoint config) rows config mt _ _
        (fun r hr => List.mem_map_of_mem _ hr) (fun r hr => List.mem_map_of_mem _ hr)
        course bi st h)
  have hcourses : ∀ (cs : List Course) (st : PAState),
      PAInv ((pa_lab_rooms config).map Room.room_id)
        ((pa_regular_rooms config).map Room.room_id) st →
      PAInv ((pa_lab_rooms config).map Room.room_id)
        ((pa_regular_rooms config).map Room.room_id)
        (cs.foldl (fun st course => course.batches.enum.foldl
          (fun st2 bi => scheduleBatch rows config mt (pa_regular_rooms config)
            (pa_lab_rooms config) course bi st2) st) st) := by
    intro cs
    induction cs with
    | nil => intro st h; exact h
    | cons course rest ih =>
      intro st h
      rw [List.foldl_cons]
      exact ih _ (hbatch course course.batches.enum st h)
  exact hcourses sorted_courses paInitial paInitial_inv

end PlannerAgent

/-- C1: the no-double-booking invariant holds for every proposal produced by
ConflictAwarePlanner.generate_proposal and for every entry list produced by
PlannerAgent._schedule_optimized: at every (day, hour) slot, each teacher
name occurs in at most one ScheduleEntry and each room id occurs in at most
one ScheduleEntry. -/
theorem claim_C1_no_double_booking :
    (∀ (rows : List (List CB)) (courses : List (String × Course)),
      noDoubleBooking (ConflictAwarePlanner.generate_proposal rows courses).entries) ∧
    (∀ (rows : List (List CB)) (courses : List (String × Course))
      (config : SchedulingConfig) (mt : Bool),
      noDoubleBooking (PlannerAgent.schedule_optimized rows courses config mt)) :=
  ⟨fun rows courses => (ConflictAwarePlanner.generateState_inv rows courses).2.2,
   fun rows courses config mt =>
     (PlannerAgent.scheduleOptimizedState_inv rows courses config mt).2.2.2⟩

namespace RefinementAgent

theorem pairSum_append (pc : CB × CB → Nat) :
    ∀ (vs : List CB) (v : CB),
    pairSum pc (vs ++ [v]) = pairSum pc vs + (vs.map fun u => pc (canonKey u v)).sum
  | [], v => by simp [pairSum]
  | u :: rest, v => by
    rw [List.cons_append, pairSum, pairSum, pairSum_append pc rest v]
    simp [List.map_append]
    ring

theorem assocGet_insertAppend {κ ν : Type} [DecidableEq κ] :
    ∀ (assoc : List (κ × List ν)) (k' : κ) (v : ν) (k : κ),
    assocGet (insertAppend assoc k' v) k =
      if k' = k then assocGet assoc k ++ [v] else assocGet assoc k
  | [], k', v, k => by
    by_cases hk : k' = k
    · simp [insertAppend, assocGet, hk]
    · simp [insertAppend, assocGet, hk]
  | (k'', vs) :: rest, k', v, k => by
    by_cases h1 : k'' = k'
    · subst h1
      by_cases h2 : k'' = k
      · subst h2
        simp [insertAppend, assocGet]
      · simp [insertAppend, assocGet, h2]
    · by_cases h2 : k'' = k
      · subst h2
        have h3 : ¬ k' = k'' := fun h => h1 h.symm
        simp [insertAppend, assocGet, h1, h3]
      · simp [insertAppend, assocGet, h1, h2, assocGet_insertAppend rest k' v k]

end RefinementAgent

/-- A key absent from the adjacency sets is absent from pair_student_count:
the two dicts of _load_student_conflicts are filled by the same pair loop. -/
theorem pair_student_count_eq_zero {rows : List (List CB)} {a b : CB}
    (h : adjMem rows a b = false) :
    pair_student_count rows (canonKey a b) = 0 := by
  rw [pair_student_count, List.length_eq_zero, List.filter_eq_nil_iff]
  intro p hp
  simp only [decide_eq_true_eq]
  intro hkey
  have hadj : adjMem rows a b = true := by
    rw [adjMem, List.any_eq_true]
    refine ⟨p, hp, ?_⟩
    simp only [decide_eq_true_eq]
    rw [canonKey, canonKey] at hkey
    split at hkey <;> split at hkey <;>
      (rw [Prod.mk.injEq] at hkey; tauto)
  rw [h] at hadj
  cases hadj

/-- Dropping zero-valued elements does not change a sum. -/
theorem sum_filter_eq_sum {α : Type} (p : α → Bool) (f : α → Nat) :
    ∀ l : List α, (∀ x ∈ l, p x = false → f x = 0) →
    ((l.filter p).map f).sum = (l.map f).sum
  | [], _ => rfl
  | x :: rest, h => by
    have ih := sum_filter_eq_sum p f rest fun y hy hpy => h y (List.mem_cons_of_mem _ hy) hpy
    rw [List.filter_cons]
    by_cases hp : p x = true
    · rw [if_pos hp, List.map_cons, List.map_cons, List.sum_cons, List.sum_cons, ih]
    · have hf : p x = false := by simpa using hp
      have h0 : f x = 0 := h x (List.mem_cons_self x rest) hf
      rw [if_neg hp, List.map_cons, List.sum_cons, ih, h0, Nat.zero_add]

/-- The five Day values are pairwise distinct strings. -/
theorem day_value_inj : ∀ (d1 d2 : Day), d1.value = d2.value → d1 = d2 := by
  intro d1 d2
  cases d1 <;> cases d2 <;> decide

/-- Membership after a set-add comes from the set or is the added element. -/
theorem mem_addSet {α : Type} [DecidableEq α] {l : List α} {x y : α}
    (h : x ∈ addSet l y) : x ∈ l ∨ x = y := by
  rw [addSet] at h
  split at h
  · exact Or.inl h
  · rcases List.mem_append.mp h with h | h
    · exact Or.inl h
    · exact Or.inr (List.mem_singleton.mp h)

/-- Stable insertion adds no new elements. -/
theorem mem_insertStable {α : Type} (lt : α → α → Bool) (x y : α) :
    ∀ l : List α, y ∈ insertStable lt x l → y = x ∨ y ∈ l
  | [], h => by simpa [insertStable] using h
  | z :: zs, h => by
    rw [insertStable] at h
    split at h
    · rcases List.mem_cons.mp h with rfl | h
      · exact Or.inl rfl
      · exact Or.inr h
    · rcases List.mem_cons.mp h with rfl | h
      · exact Or.inr (List.mem_cons_self _ _)
      · rcases mem_insertStable lt x y zs h with h | h
        · exact Or.inl h
        · exact Or.inr (List.mem_cons_of_mem _ h)

/-- The stable sort adds no new elements. -/
theorem mem_stableSortBy {α : Type} (lt : α → α → Bool) {l : List α} {y : α}
    (h : y ∈ stableSortBy lt l) : y ∈ l := by
  rw [stableSortBy] at h
  have haux : ∀ (l' acc : List α),
      y ∈ l'.foldl (fun acc x => insertStable lt x acc) acc → y ∈ acc ∨ y ∈ l' := by
    intro l'
    induction l' with
    | nil => intro acc h; exact Or.inl h
    | cons x xs ih =>
      intro acc h
      rw [List.foldl_cons] at h
      rcases ih _ h with h | h
      · rcases mem_insertStable lt x y acc h with rfl | h
        · exact Or.inr (List.mem_cons_self _ _)
        · exact Or.inl h
      · exact Or.inr (List.mem_cons_of_mem _ h)
  rcases haux l [] h with h | h
  · cases h
  · exact h

namespace RefinementAgent

/-- Appending a new course-batch to one slot group adds its pair weight
against every previous occupant of that group. -/
theorem sum_insertAppend {κ : Type} [DecidableEq κ] (pc : CB × CB → Nat) :
    ∀ (assoc : List (κ × List CB)) (k : κ) (v : CB),
    ((insertAppend assoc k v).map fun g => pairSum pc g.2).sum =
      (assoc.map fun g => pairSum pc g.2).sum +
        ((assocGet assoc k).map fun u => pc (canonKey u v)).sum
  | [], k, v => by simp [insertAppend, assocGet, pairSum]
  | (k', vs) :: rest, k, v => by
    by_cases hk : k' = k
    · subst hk
      rw [insertAppend, if_pos rfl]
      simp only [List.map_cons, List.sum_cons]
      rw [pairSum_append, assocGet, if_pos rfl]
      ring
    · rw [insertAppend, if_neg hk]
      simp only [List.map_cons, List.sum_cons]
      rw [sum_insertAppend pc rest k v, assocGet, if_neg hk]
      ring

/-- The slot grouping of an extended entry list is an insertAppend. -/
theorem calcSlotCourses_append (entries : List ScheduleEntry) (e : ScheduleEntry) :
    calcSlotCourses (entries ++ [e]) =
      insertAppend (calcSlotCourses entries)
        (e.time_slot.day.value, e.time_slot.hour) (e.course_code, e.batch_id) := by
  rw [calcSlotCourses, calcSlotCourses, List.foldl_append, List.foldl_cons, List.foldl_nil]

/-- The recount of an extended entry list: the old total plus the new entry's
pair weights against the previous occupants of its slot group. -/
theorem calculate_conflicts_append (entries : List ScheduleEntry) (e : ScheduleEntry)
    (pc : CB × CB → Nat) :
    calculate_conflicts (entries ++ [e]) pc =
      calculate_conflicts entries pc +
        ((assocGet (calcSlotCourses entries)
            (e.time_slot.day.value, e.time_slot.hour)).map
          fun u => pc (canonKey u (e.course_code, e.batch_id))).sum := by
  rw [calculate_conflicts, calculate_conflicts, calcSlotCourses_append, sum_insertAppend]

end RefinementAgent

namespace ConflictAwarePlanner

/-- The per-slot marginal cost equals the unfiltered pair-weight sum against
the slot's occupants: occupants outside the adjacency set carry pair count 0. -/
theorem count_slot_conflicts_eq (rows : List (List CB)) (sc : Day × Nat → List CB)
    (d : Day) (h : Nat) (course batch : String) :
    count_slot_conflicts rows sc d h course batch =
      ((sc (d, h)).map fun u =>
        pair_student_count rows (canonKey u (course, batch))).sum := by
  rw [count_slot_conflicts]
  rw [sum_filter_eq_sum (fun u => adjMem rows (course, batch) u)
    (fun u => pair_student_count rows (canonKey (course, batch) u)) (sc (d, h))
    (fun u _ hadj => pair_student_count_eq_zero hadj)]
  have hfun : (fun u => pair_student_count rows (canonKey (course, batch) u)) =
      fun u => pair_student_count rows (canonKey u (course, batch)) :=
    funext fun u => by rw [canonKey_comm]
  rw [hfun]

/-- Under unique course codes (courses form a Python dict), every session
group carries the teacher determined by its (course, batch). -/
theorem sessions_teacher (rows : List (List CB)) {courses : List (String × Course)}
    (hnd : (courses.map Prod.fst).Nodup) :
    ∀ s ∈ sessions_to_schedule rows courses,
      s.teacher = teacherOf courses (s.course, s.batch) := by
  intro s hs
  rw [sessions_to_schedule] at hs
  rcases List.mem_flatMap.mp hs with ⟨cc, hcc, hs2⟩
  rcases List.mem_flatMap.mp hs2 with ⟨bi, hbi, hs3⟩
  have hlookup : courses.lookup cc.1 = some cc.2 :=
    PlannerAgent.lookup_eq_some_of_mem hnd hcc
  have hmem : s ∈ (if cc.2.theory_hours > 0 then
        [SessionReq.mk cc.1 bi.2 "theory" cc.2.theory_hours
          ((cc.2.teacher_assignments.lookup bi.2).getD "TBA")
          (cc.2.batch_sizes.getD bi.1 60) (conflict_count rows (cc.1, bi.2))]
      else []) ++
      (if cc.2.lab_hours > 0 then
        [SessionReq.mk cc.1 bi.2 "lab" cc.2.lab_hours
          ((cc.2.teacher_assignments.lookup bi.2).getD "TBA")
          (cc.2.batch_sizes.getD bi.1 60) (conflict_count rows (cc.1, bi.2))]
      else []) := hs3
  have hfields : s.teacher = (cc.2.teacher_assignments.lookup bi.2).getD "TBA" ∧
      s.course = cc.1 ∧ s.batch = bi.2 := by
    rcases List.mem_append.mp hmem with h | h
    · split at h
      · rcases List.mem_singleton.mp h with rfl
        exact ⟨rfl, rfl, rfl⟩
      · cases h
    · split at h
      · rcases List.mem_singleton.mp h with rfl
        exact ⟨rfl, rfl, rfl⟩
      · cases h
  obtain ⟨ht, hc, hb⟩ := hfields
  rw [ht, hc, hb]
  simp [teacherOf, hlookup]

/-- Every candidate carries the marginal cost of its own slot. -/
theorem fbsCandidatesOf_cost {rows : List (List CB)} {ts : Day × Nat → List String}
    {rs : Day × Nat × String → Bool} {sc : Day × Nat → List CB}
    {course batch teacher : String} {rooms : List String} {slots : List (Day × Nat)}
    {r : (Day × Nat) × String × Nat}
    (h : r ∈ fbsCandidatesOf rows ts rs sc course batch teacher rooms slots) :
    r.2.2 = count_slot_conflicts rows sc r.1.1 r.1.2 course batch := by
  rw [fbsCandidatesOf] at h
  rcases List.mem_filterMap.mp h with ⟨s, _, hf⟩
  by_cases ht : teacher ∈ ts s
  · rw [if_pos ht] at hf
    cases hf
  · rw [if_neg ht] at hf
    cases hroom : rooms.find? fun room => ! rs (s.1, s.2, room) with
    | none => rw [hroom] at hf; cases hf
    | some room =>
      rw [hroom] at hf
      cases hf
      rfl

/-- The cost component returned by find_best_slot is the marginal cost of the
returned slot against the current occupancy. -/
theorem find_best_slot_cost {rows : List (List CB)} {ts : Day × Nat → List String}
    {rs : Day × Nat × String → Bool} {sc : Day × Nat → List CB}
    {course batch teacher : String} {rooms : List String}
    {r : (Day × Nat) × String × Nat}
    (h : find_best_slot rows ts rs sc course batch teacher rooms = some r) :
    r.2.2 = count_slot_conflicts rows sc r.1.1 r.1.2 course batch := by
  rw [find_best_slot, find_best_slot_go_eq] at h
  obtain ⟨hmem, _, _⟩ := firstMinCand_spec _ none r h
  rcases hmem with hmem | hmem
  · exact fbsCandidatesOf_cost hmem
  · cases hmem

theorem commitEntry_conflictInv {rows : List (List CB)}
    {courses : List (String × Course)} {st : CAState} {s : Day × Nat} {room : String}
    {course batch teacher : String} {stype : SessionType} {students : Nat}
    (ht : teacher = teacherOf courses (course, batch))
    (hteacher : teacher ∉ st.teacher_schedule s)
    (hInv : CAConflictInv rows courses st) :
    CAConflictInv rows courses
      (commitEntry st s room
        ⟨course, batch, teacher, room, ⟨s.1, s.2⟩, stype, students⟩
        (count_slot_conflicts rows st.slot_courses s.1 s.2 course batch)) := by
  obtain ⟨h1, h2, h3⟩ := hInv
  have hnotmem : (course, batch) ∉ st.slot_courses s := by
    intro hmem
    apply hteacher
    rw [ht]
    exact h2 s.1 s.2 (course, batch) hmem
  have hgrp : RefinementAgent.calcSlotCourses (st.entries ++
      [⟨course, batch, teacher, room, ⟨s.1, s.2⟩, stype, students⟩]) =
      insertAppend (RefinementAgent.calcSlotCourses st.entries)
        (s.1.value, s.2) (course, batch) :=
    RefinementAgent.calcSlotCourses_append st.entries _
  refine ⟨?_, ?_, ?_⟩
  · intro d h
    show (if (d, h) = s then addSet (st.slot_courses (d, h)) (course, batch)
        else st.slot_courses (d, h)) =
      RefinementAgent.assocGet (RefinementAgent.calcSlotCourses
        (st.entries ++ [⟨course, batch, teacher, room, ⟨s.1, s.2⟩, stype, students⟩]))
        (d.value, h)
    rw [hgrp, RefinementAgent.assocGet_insertAppend]
    by_cases hdh : (d, h) = s
    · rw [if_pos hdh]
      have hd : s.1 = d := by rw [← hdh]
      have hh : s.2 = h := by rw [← hdh]
      rw [if_pos (by rw [hd, hh])]
      rw [← h1 d h]
      have hnm : (course, batch) ∉ st.slot_courses (d, h) := by
        rw [hdh]
        exact hnotmem
      rw [addSet, if_neg hnm]
    · rw [if_neg hdh]
      have hkey : ¬ ((s.1.value, s.2) = (d.value, h)) := by
        intro he
        apply hdh
        rw [Prod.mk.injEq] at he
        rw [Prod.ext_iff]
        exact ⟨(day_value_inj s.1 d he.1).symm, he.2.symm⟩
      rw [if_neg hkey]
      exact h1 d h
  · intro d h cb hcb
    have hcb' : cb ∈ (if (d, h) = s then addSet (st.slot_courses (d, h)) (course, batch)
        else st.slot_courses (d, h)) := hcb
    show teacherOf courses cb ∈
      (if (d, h) = s then addSet (st.teacher_schedule (d, h)) teacher
        else st.teacher_schedule (d, h))
    by_cases hdh : (d, h) = s
    · rw [if_pos hdh] at hcb' ⊢
      rcases mem_addSet hcb' with hm | rfl
      · exact addSet_subset (h2 d h cb hm)
      · rw [← ht]
        exact addSet_mem_self _ _
    · rw [if_neg hdh] at hcb' ⊢
      exact h2 d h cb hcb'
  · show st.total_conflicts +
        count_slot_conflicts rows st.slot_courses s.1 s.2 course batch =
      RefinementAgent.calculate_conflicts
        (st.entries ++ [⟨course, batch, teacher, room, ⟨s.1, s.2⟩, stype, students⟩])
        (pair_student_count rows)
    have hcc : RefinementAgent.calculate_conflicts
        (st.entries ++ [⟨course, batch, teacher, room, ⟨s.1, s.2⟩, stype, students⟩])
        (pair_student_count rows) =
        RefinementAgent.calculate_conflicts st.entries (pair_student_count rows) +
          ((RefinementAgent.assocGet (RefinementAgent.calcSlotCourses st.entries)
              (s.1.value, s.2)).map
            fun u => pair_student_count rows (canonKey u (course, batch))).sum :=
      RefinementAgent.calculate_conflicts_append st.entries _ (pair_student_count rows)
    rw [hcc, ← h1 s.1 s.2, h3, count_slot_conflicts_eq]

theorem schedule_hours_conflictInv (rows : List (List CB))
    (courses : List (String × Course)) (course batch teacher stype : String)
    (students : Nat) (rooms : List String)
    (ht : teacher = teacherOf courses (course, batch)) :
    ∀ (n : Nat) (st : CAState), CAConflictInv rows courses st →
      CAConflictInv rows courses
        (schedule_hours rows course batch teacher stype students rooms n st)
  | 0, st, hInv => hInv
  | n + 1, st, hInv => by
    rw [schedule_hours]
    cases hfbs : find_best_slot rows st.teacher_schedule st.room_schedule st.slot_courses
        course batch teacher rooms with
    | none => exact hInv
    | some r =>
      obtain ⟨hteacher, _, _⟩ := find_best_slot_free hfbs
      have hcost := find_best_slot_cost hfbs
      show CAConflictInv rows courses
        (schedule_hours rows course batch teacher stype students rooms n
          (commitEntry st r.1 r.2.1
            ⟨course, batch, teacher, r.2.1, ⟨r.1.1, r.1.2⟩,
              if stype = "lab" then .lab else .theory, students⟩ r.2.2))
      rw [hcost]
      exact schedule_hours_conflictInv rows courses course batch teacher stype students
        rooms ht n _ (commitEntry_conflictInv ht hteacher hInv)

theorem schedule_session_conflictInv (rows : List (List CB))
    (courses : List (String × Course)) (session : SessionReq)
    (ht : session.teacher = teacherOf courses (session.course, session.batch))
    (st : CAState) (hInv : CAConflictInv rows courses st) :
    CAConflictInv rows courses (schedule_session rows st session) := by
  rw [schedule_session]
  exact schedule_hours_conflictInv rows courses session.course session.batch
    session.teacher session.stype session.students
    (if session.stype = "lab" then lab_rooms else regular_rooms) ht session.hours st hInv

theorem generateState_conflictInv (rows : List (List CB))
    {courses : List (String × Course)} (hnd : (courses.map Prod.fst).Nodup) :
    CAConflictInv rows courses (generateState rows courses) := by
  have hinit : CAConflictInv rows courses initialState :=
    ⟨fun d h => rfl, fun d h cb hcb => absurd hcb (List.not_mem_nil cb), rfl⟩
  have haux : ∀ (l : List SessionReq),
      (∀ s ∈ l, s.teacher = teacherOf courses (s.course, s.batch)) →
      ∀ st, CAConflictInv rows courses st →
        CAConflictInv rows courses (l.foldl (schedule_session rows) st) := by
    intro l
    induction l with
    | nil => intro _ st h; exact h
    | cons x xs ih =>
      intro hl st h
      rw [List.foldl_cons]
      exact ih (fun s hs => hl s (List.mem_cons_of_mem _ hs)) _
        (schedule_session_conflictInv rows courses x (hl x (List.mem_cons_self _ _)) st h)
  rw [generateState]
  exact haux _ (fun s hs => sessions_teacher rows hnd s
    (mem_stableSortBy _ hs)) initialState hinit

end ConflictAwarePlanner

/-- C10: the running total_conflicts accumulated by
ConflictAwarePlanner.generate_proposal (the sum of the marginal conflict cost
realized at each commit) equals the pairwise student-overlap conflict of the
final entry list, as recomputed independently by
RefinementAgent.calculate_conflicts from the same pair_student_count data,
for every enrollment input and every course dict (unique course codes, as a
Python dict guarantees). -/
theorem claim_C10_conflict_total (rows : List (List CB))
    (courses : List (String × Course)) (hnd : (courses.map Prod.fst).Nodup) :
    (ConflictAwarePlanner.generateState rows courses).total_conflicts =
      RefinementAgent.calculate_conflicts
        (ConflictAwarePlanner.generate_proposal rows courses).entries
        (pair_student_count rows) :=
  (ConflictAwarePlanner.generateState_conflictInv rows hnd).2.2

/-- Witness for C10 at a concrete input: one student enrolled in both courses
of the shared-teacher pair. -/
theorem claim_C10_witness :
    ((cexCoursesAB.map Prod.fst).Nodup) ∧
    (ConflictAwarePlanner.generateState [[("A", "B1"), ("B", "B1")]]
        cexCoursesAB).total_conflicts =
      RefinementAgent.calculate_conflicts
        (ConflictAwarePlanner.generate_proposal [[("A", "B1"), ("B", "B1")]]
          cexCoursesAB).entries
        (pair_student_count [[("A", "B1"), ("B", "B1")]]) :=
  ⟨by decide,
   claim_C10_conflict_total [[("A", "B1"), ("B", "B1")]] cexCoursesAB (by decide)⟩

/-- Counterexample for C3 as stated: ConflictAwarePlanner.generate_proposal
places lab hours independently, and on this input produces a Lab entry with no
paired same-room next-hour (or previous-hour) Lab entry on the same day. -/
theorem claim_C3_counterexample :
    ¬ (∀ e ∈ (ConflictAwarePlanner.generate_proposal [] cexCoursesAB).entries,
        e.session_type = SessionType.lab →
        ∃ e2 ∈ (ConflictAwarePlanner.generate_proposal [] cexCoursesAB).entries,
          e2.session_type = SessionType.lab ∧
          e2.course_code = e.course_code ∧ e2.batch_id = e.batch_id ∧
          e2.room_id = e.room_id ∧ e2.time_slot.day = e.time_slot.day ∧
          (e2.time_slot.hour = e.time_slot.hour + 1 ∨
            e.time_slot.hour = e2.time_slot.hour + 1)) := by
  decide

end Timetable
